import Mathlib

/-!
Verification development for the convert-buddy streaming format converter
(crates/convert-buddy). The Rust sources are shallowly embedded:

* byte slices become `List Nat` (each element an octet value);
* machine counters (u64/usize) become `Nat` (no claim exercises wrap-around);
* fallible Rust functions returning `Result` become `Except ConvertError`;
* `serde_json` (an external dependency) is modelled by an executable JSON
  grammar parser/serializer over the `Json` type below; its default map is a
  BTreeMap, so objects are kept as key-sorted association lists and duplicate
  keys keep the last value;
* `f64` values are modelled exactly (`RFloat` = rationals plus infinities/NaN);
  binary-rounding of arithmetic is abstracted, which no claim depends on;
* the converter state machine is embedded for the CSV/NDJSON/JSON pipelines
  without a transform plan (the pipelines the claims quantify over); the XML
  record translator and the transform expression evaluator are embedded at
  component level, exactly as the corresponding claims reference them.
-/

/-- Byte strings are lists of octet values. -/
abbrev Bytes := List Nat

/-- Rust `u8::is_ascii_whitespace`: space, tab, line feed, form feed, carriage return. -/
def isRustWs (b : Nat) : Bool :=
  b == 32 || b == 9 || b == 10 || b == 12 || b == 13

/-- JSON insignificant whitespace (also the byte set trimmed by
`JsonParser::quick_validate` and `detect::trim_ascii`): space, tab, LF, CR. -/
def isJsonWs (b : Nat) : Bool :=
  b == 32 || b == 9 || b == 10 || b == 13

/-- Drop leading JSON whitespace. -/
def skipWs (s : Bytes) : Bytes := s.dropWhile (fun b => isJsonWs b)

/-- Number of newline bytes in a chunk (the record estimate used by several
`push_internal` arms: `chunk.iter().filter(|&&b| b == b'\n').count()`). -/
def countNl (s : Bytes) : Nat := (s.filter (fun b => b == 10)).length

/-- Split a byte stream at newline bytes: the list of complete line segments
(one per newline, newline excluded) and the trailing partial segment after the
last newline.  This is the line decomposition computed by the `memchr(b'\n')`
scan loops in `ndjson_parser.rs`. -/
def splitNl : Bytes → List Bytes × Bytes
  | [] => ([], [])
  | b :: rest =>
    if b = 10 then
      ([] :: (splitNl rest).1, (splitNl rest).2)
    else
      match splitNl rest with
      | ([], p) => ([], b :: p)
      | (l :: ls, p) => ((b :: l) :: ls, p)

/-- Lexicographic strict order on byte strings (the order of Rust `str`/`String`
comparison, which compares UTF-8 bytes lexicographically). -/
def bytesLt : Bytes → Bytes → Bool
  | [], [] => false
  | [], _ :: _ => true
  | _ :: _, [] => false
  | a :: as_, b :: bs =>
    if a < b then true
    else if b < a then false
    else bytesLt as_ bs

/-- Lexicographic order, non-strict. -/
def bytesLe (a b : Bytes) : Bool := !(bytesLt b a)

/-- Insertion of one element into a sorted list (helper for `insSort`). -/
def insSorted (le : Bytes → Bytes → Bool) (a : Bytes) : List Bytes → List Bytes
  | [] => [a]
  | b :: bs => if le a b then a :: b :: bs else b :: insSorted le a bs

/-- Insertion sort by a boolean order; models Rust `Vec::sort` on strings
(total lexicographic order, so stability questions do not arise for the
sorted-key lists the code builds). -/
def insSort (le : Bytes → Bytes → Bool) : List Bytes → List Bytes
  | [] => []
  | a :: as_ => insSorted le a (insSort le as_)

/-- Decimal digits of a natural number, as ASCII bytes. -/
def natLit (n : Nat) : Bytes := (Nat.toDigits 10 n).map Char.toNat

/-- Decimal rendering of an integer, as ASCII bytes. -/
def intLit (i : Int) : Bytes :=
  if i < 0 then 45 :: natLit i.natAbs else natLit i.natAbs

/-! ### UTF-8 validation (model of Rust `std::str::from_utf8` / serde string scanning) -/

/-- Read one well-formed UTF-8 sequence from the front of a byte list, returning
the sequence and the remainder; rejects overlong encodings, surrogates and
code points above U+10FFFF, as Rust does. -/
def readUtf8Seq : Bytes → Option (Bytes × Bytes)
  | [] => none
  | b :: rest =>
    if b < 128 then some ([b], rest)
    else if b < 194 then none
    else if b ≤ 223 then
      match rest with
      | c1 :: r => if 128 ≤ c1 ∧ c1 ≤ 191 then some ([b, c1], r) else none
      | _ => none
    else if b ≤ 239 then
      match rest with
      | c1 :: c2 :: r =>
        let lo1 : Nat := if b = 224 then 160 else 128
        let hi1 : Nat := if b = 237 then 159 else 191
        if lo1 ≤ c1 ∧ c1 ≤ hi1 ∧ 128 ≤ c2 ∧ c2 ≤ 191 then some ([b, c1, c2], r) else none
      | _ => none
    else if b ≤ 244 then
      match rest with
      | c1 :: c2 :: c3 :: r =>
        let lo1 : Nat := if b = 240 then 144 else 128
        let hi1 : Nat := if b = 244 then 143 else 191
        if lo1 ≤ c1 ∧ c1 ≤ hi1 ∧ 128 ≤ c2 ∧ c2 ≤ 191 ∧ 128 ≤ c3 ∧ c3 ≤ 191 then
          some ([b, c1, c2, c3], r)
        else none
      | _ => none
    else none

/-- Fueled whole-buffer UTF-8 validation loop. -/
def utf8ValidFuel : Nat → Bytes → Bool
  | 0, s => s.isEmpty
  | _ + 1, [] => true
  | fuel + 1, s =>
    match readUtf8Seq s with
    | some (_, rest) => utf8ValidFuel fuel rest
    | none => false

/-- Whether a byte string is valid UTF-8 (model of `std::str::from_utf8(..).is_ok()`). -/
def utf8Valid (s : Bytes) : Bool := utf8ValidFuel (s.length + 1) s

/-- UTF-8 encoding of a Unicode scalar value. -/
def utf8Encode (cp : Nat) : Bytes :=
  if cp < 128 then [cp]
  else if cp < 2048 then [192 + cp / 64, 128 + cp % 64]
  else if cp < 65536 then [224 + cp / 4096, 128 + cp / 64 % 64, 128 + cp % 64]
  else [240 + cp / 262144, 128 + cp / 4096 % 64, 128 + cp / 64 % 64, 128 + cp % 64]

/-! ### JSON values (model of `serde_json::Value` with its default BTreeMap) -/

/-- JSON value.  Object entries are kept sorted by key with unique keys,
matching the BTreeMap backing `serde_json::Map` in this crate's build; a
parsed number records both its exact rational value and the literal it was
parsed from (serde re-serializes integers to exactly their canonical literal;
binary float re-rendering is not modelled and no claim depends on it). -/
inductive Json where
  | null
  | bool (b : Bool)
  | num (q : Rat) (lit : Bytes)
  | str (s : Bytes)
  | arr (xs : List Json)
  | obj (entries : List (Bytes × Json))

/-- Insert into a key-sorted association list, replacing an existing binding
(model of BTreeMap::insert, hence of duplicate-key handling in serde_json:
the last binding wins). -/
def objInsert (k : Bytes) (v : Json) : List (Bytes × Json) → List (Bytes × Json)
  | [] => [(k, v)]
  | (k', v') :: rest =>
    if k = k' then (k, v) :: rest
    else if bytesLt k k' then (k, v) :: (k', v') :: rest
    else (k', v') :: objInsert k v rest

/-- Value of one hexadecimal digit byte. -/
def hexVal (b : Nat) : Option Nat :=
  if 48 ≤ b ∧ b ≤ 57 then some (b - 48)
  else if 97 ≤ b ∧ b ≤ 102 then some (b - 87)
  else if 65 ≤ b ∧ b ≤ 70 then some (b - 55)
  else none

/-- Four hex digits from the front of a byte list. -/
def readHex4 : Bytes → Option (Nat × Bytes)
  | a :: b :: c :: d :: rest =>
    match hexVal a, hexVal b, hexVal c, hexVal d with
    | some x, some y, some z, some w => some (x * 4096 + y * 256 + z * 16 + w, rest)
    | _, _, _, _ => none
  | _ => none

/-- Scan the body of a JSON string literal (after the opening quote), returning
the decoded content bytes and the bytes after the closing quote.  Models
serde_json string scanning: the eight short escapes plus \uXXXX with surrogate
pairing, raw control bytes rejected, raw multi-byte runs must be valid UTF-8. -/
def parseStringBody : Nat → Bytes → Bytes → Option (Bytes × Bytes)
  | 0, _, _ => none
  | _ + 1, [], _ => none
  | fuel + 1, b :: rest, acc =>
    if b = 34 then some (acc.reverse, rest)
    else if b = 92 then
      match rest with
      | [] => none
      | e :: rest' =>
        if e = 34 then parseStringBody fuel rest' (34 :: acc)
        else if e = 92 then parseStringBody fuel rest' (92 :: acc)
        else if e = 47 then parseStringBody fuel rest' (47 :: acc)
        else if e = 98 then parseStringBody fuel rest' (8 :: acc)
        else if e = 102 then parseStringBody fuel rest' (12 :: acc)
        else if e = 110 then parseStringBody fuel rest' (10 :: acc)
        else if e = 114 then parseStringBody fuel rest' (13 :: acc)
        else if e = 116 then parseStringBody fuel rest' (9 :: acc)
        else if e = 117 then
          match readHex4 rest' with
          | none => none
          | some (cp, r1) =>
            if 55296 ≤ cp ∧ cp ≤ 56319 then
              match r1 with
              | 92 :: 117 :: r2 =>
                match readHex4 r2 with
                | some (lo, r3) =>
                  if 56320 ≤ lo ∧ lo ≤ 57343 then
                    let combined := 65536 + (cp - 55296) * 1024 + (lo - 56320)
                    parseStringBody fuel r3 ((utf8Encode combined).reverse ++ acc)
                  else none
                | none => none
              | _ => none
            else if 56320 ≤ cp ∧ cp ≤ 57343 then none
            else parseStringBody fuel r1 ((utf8Encode cp).reverse ++ acc)
        else none
    else if b < 32 then none
    else if b < 128 then parseStringBody fuel rest (b :: acc)
    else
      match readUtf8Seq (b :: rest) with
      | some (seq, r) => parseStringBody fuel r (seq.reverse ++ acc)
      | none => none

/-- One or more decimal digit bytes from the front of a list. -/
def readDigits : Bytes → Bytes × Bytes
  | [] => ([], [])
  | b :: rest =>
    if 48 ≤ b ∧ b ≤ 57 then
      let (ds, r) := readDigits rest
      (b :: ds, r)
    else ([], b :: rest)

/-- Natural number denoted by a list of ASCII digit bytes. -/
def digitsVal (ds : Bytes) : Nat := ds.foldl (fun acc d => acc * 10 + (d - 48)) 0

/-- Parse a JSON number token per the JSON grammar, returning the literal, its
exact rational value and the remaining input. -/
def parseNumberTok (s : Bytes) : Option (Bytes × Rat × Bytes) := do
  let (sign, s1) := match s with
    | 45 :: r => (true, r)
    | _ => (false, s)
  let (intDs, s2) ← match s1 with
    | 48 :: r => some ([48], r)
    | b :: _ =>
      if 49 ≤ b ∧ b ≤ 57 then
        let (ds, r) := readDigits s1
        some (ds, r)
      else none
    | [] => none
  let (fracDs, s3) ← match s2 with
    | 46 :: r =>
      let (ds, r') := readDigits r
      if ds.isEmpty then none else some (ds, r')
    | _ => some ([], s2)
  let (expNeg, expDs, s4) ← match s3 with
    | b :: r =>
      if b = 101 ∨ b = 69 then
        let (en, r1) := match r with
          | 45 :: r' => (true, r')
          | 43 :: r' => (false, r')
          | _ => (false, r)
        let (ds, r2) := readDigits r1
        if ds.isEmpty then none else some (en, ds, r2)
      else some (false, ([] : Bytes), s3)
    | [] => some (false, ([] : Bytes), s3)
  let lit : Bytes :=
    (if sign then [45] else []) ++ intDs ++
    (if fracDs.isEmpty then [] else 46 :: fracDs) ++
    (if expDs.isEmpty then [] else 101 :: (if expNeg then [45] else []) ++ expDs)
  let mant : Nat := digitsVal (intDs ++ fracDs)
  let exp10 : Int := (if expNeg then -(digitsVal expDs : Int) else (digitsVal expDs : Int)) - (fracDs.length : Int)
  let mag : Rat := (mant : Rat) * (10 : Rat) ^ exp10
  let q : Rat := if sign then -mag else mag
  some (lit, q, s4)

mutual

/-- Fueled recursive-descent JSON value parser (model of serde_json parsing). -/
def parseValue : Nat → Bytes → Option (Json × Bytes)
  | 0, _ => none
  | fuel + 1, s =>
    match skipWs s with
    | [] => none
    | b :: rest =>
      if b = 110 then
        match rest with
        | 117 :: 108 :: 108 :: r => some (Json.null, r)
        | _ => none
      else if b = 116 then
        match rest with
        | 114 :: 117 :: 101 :: r => some (Json.bool true, r)
        | _ => none
      else if b = 102 then
        match rest with
        | 97 :: 108 :: 115 :: 101 :: r => some (Json.bool false, r)
        | _ => none
      else if b = 34 then
        match parseStringBody (rest.length + 1) rest [] with
        | some (content, r) => some (Json.str content, r)
        | none => none
      else if b = 91 then
        match skipWs rest with
        | 93 :: r => some (Json.arr [], r)
        | _ => parseArrayRest fuel rest []
      else if b = 123 then
        match skipWs rest with
        | 125 :: r => some (Json.obj [], r)
        | _ => parseObjRest fuel rest []
      else
        match parseNumberTok (b :: rest) with
        | some (lit, q, r) => some (Json.num q lit, r)
        | none => none

/-- Parse the elements of a non-empty JSON array after the opening bracket. -/
def parseArrayRest : Nat → Bytes → List Json → Option (Json × Bytes)
  | 0, _, _ => none
  | fuel + 1, s, acc =>
    match parseValue fuel s with
    | none => none
    | some (v, r) =>
      match skipWs r with
      | 44 :: r' => parseArrayRest fuel r' (v :: acc)
      | 93 :: r' => some (Json.arr (v :: acc).reverse, r')
      | _ => none

/-- Parse the entries of a non-empty JSON object after the opening brace. -/
def parseObjRest : Nat → Bytes → List (Bytes × Json) → Option (Json × Bytes)
  | 0, _, _ => none
  | fuel + 1, s, acc =>
    match skipWs s with
    | 34 :: r =>
      match parseStringBody (r.length + 1) r [] with
      | none => none
      | some (key, r1) =>
        match skipWs r1 with
        | 58 :: r2 =>
          match parseValue fuel r2 with
          | none => none
          | some (v, r3) =>
            match skipWs r3 with
            | 44 :: r4 => parseObjRest fuel r4 (objInsert key v acc)
            | 125 :: r4 => some (Json.obj (objInsert key v acc), r4)
            | _ => none
        | _ => none
    | _ => none

end

/-- Parse a complete JSON document: one value surrounded by optional
whitespace, with no trailing content (serde_json `from_slice` / `from_str`
on a full buffer). -/
def jsonParse (s : Bytes) : Option Json :=
  if utf8Valid s then
    match parseValue (2 * s.length + 8) s with
    | some (v, rest) => if (skipWs rest).isEmpty then some v else none
    | none => none
  else none

/-- Escape a decoded string for JSON output, as serde_json does: quote,
backslash, and the control characters (short escapes for \b \t \n \f \r,
\u00XX for the rest); all other bytes are copied. -/
def serdeEscape : Bytes → Bytes
  | [] => []
  | b :: rest =>
    (if b = 34 then [92, 34]
     else if b = 92 then [92, 92]
     else if b = 8 then [92, 98]
     else if b = 9 then [92, 116]
     else if b = 10 then [92, 110]
     else if b = 12 then [92, 102]
     else if b = 13 then [92, 114]
     else if b < 32 then
       [92, 117, 48, 48,
        (if b / 16 < 10 then 48 + b / 16 else 87 + b / 16),
        (if b % 16 < 10 then 48 + b % 16 else 87 + b % 16)]
     else [b]) ++ serdeEscape rest

mutual

/-- Compact serialization of a JSON value (serde_json `to_writer`/`to_vec`). -/
def serializeJson : Json → Bytes
  | Json.null => [110, 117, 108, 108]
  | Json.bool true => [116, 114, 117, 101]
  | Json.bool false => [102, 97, 108, 115, 101]
  | Json.num _ lit => lit
  | Json.str s => 34 :: serdeEscape s ++ [34]
  | Json.arr xs => 91 :: serializeArr xs ++ [93]
  | Json.obj entries => 123 :: serializeObj entries ++ [125]

/-- Comma-joined serialization of array elements. -/
def serializeArr : List Json → Bytes
  | [] => []
  | [x] => serializeJson x
  | x :: y :: rest => serializeJson x ++ 44 :: serializeArr (y :: rest)

/-- Comma-joined serialization of object entries (already key-sorted). -/
def serializeObj : List (Bytes × Json) → Bytes
  | [] => []
  | [(k, v)] => 34 :: serdeEscape k ++ [34, 58] ++ serializeJson v
  | (k, v) :: e :: rest =>
    34 :: serdeEscape k ++ [34, 58] ++ serializeJson v ++ 44 :: serializeObj (e :: rest)

end

/-! ### Error taxonomy (error.rs `ConvertError`) -/

/-- Error kinds of the crate (`error.rs`).  The Utf8Error payload (a
`std::str::Utf8Error`) is not modelled; serde/quick-xml message strings are
abstracted to fixed model messages where no claim depends on them. -/
inductive ConvertError where
  | jsonParse (msg : String)
  | csvParse (msg : String)
  | xmlParse (msg : String)
  | utf8Error
  | invalidConfig (msg : String)
  | bufferOverflow (msg : String)
  | io (msg : String)
deriving DecidableEq

/-! ### JSON validator (json_parser.rs `JsonParser`) -/

/-- State of json_parser.rs `JsonParser` (the `use_simd` flag; this build is
the portable serde_json mode). -/
structure JsonParser where
  useSimd : Bool
deriving DecidableEq

/-- Constructor `JsonParser::new` (portable mode: the simd feature is off). -/
def JsonParser.new : JsonParser := ⟨false⟩

/-- Model of `JsonParser::quick_validate`: trim surrounding whitespace and
accept iff the remaining first byte is a JSON value start marker. -/
def quickValidate (data : Bytes) : Bool :=
  if data.isEmpty then false
  else
    let trimmed := (data.dropWhile (fun b => isJsonWs b)).reverse.dropWhile (fun b => isJsonWs b) |>.reverse
    match trimmed with
    | [] => false
    | b :: _ => b = 123 || b = 91 || b = 34 || b = 116 || b = 102 || b = 110 || b = 45 || (48 ≤ b && b ≤ 57)

/-- Model of `JsonParser::parse_and_validate` (portable mode): a full
serde_json structural parse, succeeding iff the buffer is one valid JSON
document. -/
def parseAndValidate (data : Bytes) : Except ConvertError Unit :=
  match jsonParse data with
  | some _ => Except.ok ()
  | none => Except.error (ConvertError.jsonParse ("invalid JSON document"))

/-! ### NDJSON parser (ndjson_parser.rs `NdjsonParser`) -/

/-- State of `NdjsonParser`: the cross-chunk partial line, the (practically
always empty) output buffer, the advisory chunk target, and the monotone item
counter used for comma placement by `to_json_array`. -/
structure NdjsonParser where
  jsonParser : JsonParser
  partialLine : Bytes
  outputBuffer : Bytes
  chunkTargetBytes : Nat
  itemsWritten : Nat
deriving DecidableEq

/-- Constructor `NdjsonParser::new`. -/
def NdjsonParser.new (chunkTargetBytes : Nat) : NdjsonParser :=
  ⟨JsonParser.new, [], [], chunkTargetBytes, 0⟩

/-- The line filter used by the scan loops: process a line iff it is nonempty
and not all ASCII whitespace. -/
def lineKept (l : Bytes) : Bool := !l.isEmpty && !(l.all isRustWs)

/-- Model of `NdjsonParser::process_line`: skip (with a debug log) any line
rejected by the quick byte check; otherwise fully parse it, copying it
verbatim plus a newline on success and propagating a JsonParse error on
failure. -/
def NdjsonParser.processLine (line : Bytes) : Except ConvertError Bytes :=
  if !(quickValidate line) then Except.ok []
  else
    match jsonParse line with
    | some _ => Except.ok (line ++ [10])
    | none => Except.error (ConvertError.jsonParse ("invalid JSON document"))

/-- Process the complete lines found in one push, concatenating their outputs
and stopping at the first line error (the loop body of `NdjsonParser::push`). -/
def processLinesM : List Bytes → Except ConvertError Bytes
  | [] => Except.ok []
  | l :: ls =>
    if lineKept l then
      match NdjsonParser.processLine l with
      | Except.error e => Except.error e
      | Except.ok o =>
        match processLinesM ls with
        | Except.error e => Except.error e
        | Except.ok rest => Except.ok (o ++ rest)
    else processLinesM ls

/-- Model of `NdjsonParser::push`: prepend the partial line, process each
complete line, and keep the tail after the last newline as the new partial
line. -/
def NdjsonParser.push (p : NdjsonParser) (chunk : Bytes) : Except ConvertError (Bytes × NdjsonParser) :=
  let data := p.partialLine ++ chunk
  let s := splitNl data
  match processLinesM s.1 with
  | Except.error e => Except.error e
  | Except.ok out => Except.ok (out, { p with partialLine := s.2 })

/-- Model of `NdjsonParser::finish`: process the remaining partial line (if
nonempty and not all-whitespace) and flush the output buffer.  The partial
line is taken (emptied) before processing. -/
def NdjsonParser.finish (p : NdjsonParser) : Except ConvertError (Bytes × NdjsonParser) :=
  let step : Except ConvertError Bytes :=
    if !p.partialLine.isEmpty then
      if !(p.partialLine.all isRustWs) then NdjsonParser.processLine p.partialLine
      else Except.ok []
    else Except.ok []
  match step with
  | Except.error e => Except.error e
  | Except.ok o => Except.ok (o ++ p.outputBuffer, { p with partialLine := [], outputBuffer := [] })

/-- The comma-separated item emission loop of `to_json_array`: emit each kept
line, preceded by a comma whenever the running item counter is positive;
returns the emitted bytes and the updated counter. -/
def emitItems (t : Nat) : List Bytes → Bytes × Nat
  | [] => ([], t)
  | l :: ls =>
    if lineKept l then
      let pre : Bytes := if t > 0 then [44] else []
      let (o, t') := emitItems (t + 1) ls
      (pre ++ l ++ o, t')
    else emitItems t ls

/-- Model of `NdjsonParser::to_json_array`: write the opening bracket when
`isFirst`, emit the complete kept lines comma-separated by the monotone
counter, carry the partial line, and on `isLast` flush the final partial line
(taking it) and write the closing bracket.  The source returns `Ok`
unconditionally. -/
def NdjsonParser.toJsonArray (p : NdjsonParser) (chunk : Bytes) (isFirst isLast : Bool) :
    Bytes × NdjsonParser :=
  let header : Bytes := if isFirst then [91] else []
  let data := p.partialLine ++ chunk
  let s := splitNl data
  let (items, t1) := emitItems p.itemsWritten s.1
  let partial1 := s.2
  if isLast then
    let (finalItem, t2) :=
      if !partial1.isEmpty then
        if !(partial1.all isRustWs) then
          ((if t1 > 0 then [44] else []) ++ partial1, t1 + 1)
        else ([], t1)
      else ([], t1)
    (header ++ items ++ finalItem ++ [93], { p with partialLine := [], itemsWritten := t2 })
  else
    (header ++ items, { p with partialLine := partial1, itemsWritten := t1 })

/-- Size accessor `NdjsonParser::partial_size`. -/
def NdjsonParser.partialSize (p : NdjsonParser) : Nat := p.partialLine.length

/-! ### CSV parser (csv_parser.rs `CsvParser`) -/

/-- CSV parser configuration (`CsvConfig`). -/
structure CsvConfig where
  delimiter : Nat
  quote : Nat
  escape : Option Nat
  hasHeaders : Bool
  trimWhitespace : Bool
deriving DecidableEq

/-- The `Default` impl: comma, double quote, RFC-4180 doubled-quote escape,
headers on, no trimming. -/
def CsvConfig.default : CsvConfig :=
  ⟨44, 34, some 34, true, false⟩

/-- State of `CsvParser`: configuration, the cross-chunk partial line, the
frozen header vector once read, the record counter and the speculative
fast-path flag. -/
structure CsvParser where
  config : CsvConfig
  partialLine : Bytes
  headers : Option (List Bytes)
  outputBuffer : Bytes
  chunkTargetBytes : Nat
  recordCount : Nat
  speculativeMode : Bool
deriving DecidableEq

/-- Constructor `CsvParser::new`. -/
def CsvParser.new (config : CsvConfig) (chunkTargetBytes : Nat) : CsvParser :=
  ⟨config, [], none, [], chunkTargetBytes, 0, true⟩

/-- Scan loop of `CsvParser::find_line_end`: the index of the first line
terminator (newline, or carriage return) outside quotes, skipping
escaped-quote pairs.  The escaped-quote lookahead applies whenever the current
byte equals the quote byte, regardless of the in-quote state, exactly as in
the source. -/
def findLineEndAux (cfg : CsvConfig) : Nat → Bytes → Bool → Nat → Option Nat
  | 0, _, _, _ => none
  | _ + 1, [], _, _ => none
  | fuel + 1, b :: rest, inQ, pos =>
    if b = cfg.quote then
      match cfg.escape with
      | some esc =>
        match rest with
        | n :: rest' =>
          if n = esc then findLineEndAux cfg fuel rest' inQ (pos + 2)
          else findLineEndAux cfg fuel rest (!inQ) (pos + 1)
        | [] => findLineEndAux cfg fuel rest (!inQ) (pos + 1)
      | none => findLineEndAux cfg fuel rest (!inQ) (pos + 1)
    else if b = 10 ∧ !inQ then some pos
    else if b = 13 ∧ !inQ then some pos
    else findLineEndAux cfg fuel rest inQ (pos + 1)

/-- Model of `CsvParser::find_line_end`. -/
def findLineEnd (cfg : CsvConfig) (data : Bytes) : Option Nat :=
  findLineEndAux cfg (data.length + 1) data false 0

/-- Model of `CsvParser::finalize_field`: trim leading/trailing space and tab
bytes when configured. -/
def finalizeField (cfg : CsvConfig) (field : Bytes) : Bytes :=
  if cfg.trimWhitespace then
    (field.dropWhile (fun b => b = 32 ∨ b = 9)).reverse.dropWhile (fun b => b = 32 ∨ b = 9) |>.reverse
  else field

/-- Fast path `CsvParser::parse_fields_fast`: split on the delimiter with no
quote handling, finalizing each field. -/
def parseFieldsFast (cfg : CsvConfig) : Bytes → List Bytes
  | [] => [finalizeField cfg []]
  | line =>
    let rec go : Bytes → Bytes → List Bytes
      | [], acc => [finalizeField cfg acc.reverse]
      | b :: rest, acc =>
        if b = cfg.delimiter then finalizeField cfg acc.reverse :: go rest []
        else go rest (b :: acc)
    go line []

/-- Quoted path of `CsvParser::parse_fields`: the `{outside, inside-quote}`
state machine with doubled-quote escapes (the escape pair is consumed only
inside quotes). -/
def parseFieldsQuoted (cfg : CsvConfig) : Nat → Bytes → Bool → Bytes → List Bytes → List Bytes
  | 0, _, _, field, fields => (finalizeField cfg field.reverse :: fields).reverse
  | _ + 1, [], _, field, fields => (finalizeField cfg field.reverse :: fields).reverse
  | fuel + 1, b :: rest, inQ, field, fields =>
    if b = cfg.quote then
      if inQ then
        match cfg.escape with
        | some esc =>
          match rest with
          | n :: rest' =>
            if n = esc then parseFieldsQuoted cfg fuel rest' inQ (esc :: field) fields
            else parseFieldsQuoted cfg fuel rest false field fields
          | [] => parseFieldsQuoted cfg fuel rest false field fields
        | none => parseFieldsQuoted cfg fuel rest false field fields
      else parseFieldsQuoted cfg fuel rest true field fields
    else if b = cfg.delimiter ∧ !inQ then
      parseFieldsQuoted cfg fuel rest inQ [] (finalizeField cfg field.reverse :: fields)
    else parseFieldsQuoted cfg fuel rest inQ (b :: field) fields

/-- Model of `CsvParser::parse_fields` with the speculative fast-path switch:
returns the fields and the (possibly updated) speculative flag. -/
def parseFields (cfg : CsvConfig) (speculative : Bool) (line : Bytes) :
    List Bytes × Bool :=
  let hasQuotes := line.any (fun b => b = cfg.quote)
  if speculative then
    if !hasQuotes then (parseFieldsFast cfg line, true)
    else (parseFieldsQuoted cfg (line.length + 1) line false [] [], false)
  else
    if !hasQuotes then (parseFieldsFast cfg line, false)
    else (parseFieldsQuoted cfg (line.length + 1) line false [] [], false)

/-- JSON escaping used by `CsvParser::escape_json_string` (identical result on
both of its paths). -/
def escapeJsonString : Bytes → Bytes
  | [] => []
  | b :: rest =>
    (if b = 34 then [92, 34]
     else if b = 92 then [92, 92]
     else if b = 10 then [92, 110]
     else if b = 13 then [92, 114]
     else if b = 9 then [92, 116]
     else if b = 8 then [92, 98]
     else if b = 12 then [92, 102]
     else [b]) ++ escapeJsonString rest

/-- One key-value pair written by `CsvParser::fields_to_json`: the header at
this index if present, else `field_<i>`. -/
def csvJsonKey (headers : Option (List Bytes)) (i : Nat) : Bytes :=
  match headers with
  | some hdrs =>
    match hdrs.get? i with
    | some h => h
    | none => [102, 105, 101, 108, 100, 95] ++ natLit i
  | none => [102, 105, 101, 108, 100, 95] ++ natLit i

/-- Entry loop of `CsvParser::fields_to_json` from field index `i`. -/
def fieldsToJsonFrom (headers : Option (List Bytes)) (i : Nat) : List Bytes → Bytes
  | [] => []
  | f :: rest =>
    (if i > 0 then [44] else []) ++
    34 :: csvJsonKey headers i ++ [34, 58, 34] ++ escapeJsonString f ++ [34] ++
    fieldsToJsonFrom headers (i + 1) rest

/-- Model of `CsvParser::fields_to_json`: one JSON object per record, every
value a JSON string. -/
def fieldsToJson (headers : Option (List Bytes)) (fields : List Bytes) : Bytes :=
  123 :: fieldsToJsonFrom headers 0 fields ++ [125]

/-- Model of `CsvParser::process_csv_line`: parse fields, capture the header
row (not emitted) if configured and not yet seen, otherwise emit one NDJSON
line and bump the record counter. -/
def CsvParser.processCsvLine (p : CsvParser) (line : Bytes) : Bytes × CsvParser :=
  let (fields, spec') := parseFields p.config p.speculativeMode line
  let p := { p with speculativeMode := spec' }
  if p.config.hasHeaders ∧ p.headers = none then
    ([], { p with headers := some fields })
  else
    (fieldsToJson p.headers fields ++ [10], { p with recordCount := p.recordCount + 1 })

/-- The push scan loop of `CsvParser::push_to_ndjson` over the prepared input
data (fueled by the data length; each step consumes at least one byte). -/
def csvPushLoop : Nat → CsvParser → Bytes → Bytes → Bytes × CsvParser
  | 0, p, data, acc => (acc, { p with partialLine := data })
  | fuel + 1, p, data, acc =>
    match findLineEnd p.config data with
    | none => (acc, { p with partialLine := data })
    | some pos =>
      let line := data.take pos
      let rest := data.drop (pos + 1)
      let (out, p') := if lineKept line then p.processCsvLine line else ([], p)
      csvPushLoop fuel p' rest (acc ++ out)

/-- Model of `CsvParser::push_to_ndjson`: prepend the partial line, process
each quote-aware-complete line, and keep the unterminated tail. -/
def CsvParser.pushToNdjson (p : CsvParser) (chunk : Bytes) : Bytes × CsvParser :=
  let data := p.partialLine ++ chunk
  csvPushLoop (data.length + 1) { p with partialLine := [] } data []

/-- Model of `CsvParser::finish`: process any remaining partial line (taken
first); unlike the push loop this path has no emptiness or whitespace skip. -/
def CsvParser.finish (p : CsvParser) : Bytes × CsvParser :=
  if !p.partialLine.isEmpty then
    let line := p.partialLine
    ({ p with partialLine := [] } : CsvParser).processCsvLine line
  else ([], p)

/-- Size accessor `CsvParser::partial_size`. -/
def CsvParser.partialSize (p : CsvParser) : Nat := p.partialLine.length

/-! ### CSV writer (csv_writer.rs `CsvWriter`) -/

/-- Insert into the flat string map (model of `HashMap::insert`: replace the
binding if the key exists, else add it; iteration order is irrelevant because
every consumer sorts or looks up by key). -/
def hmInsert (m : List (Bytes × Bytes)) (k v : Bytes) : List (Bytes × Bytes) :=
  match m with
  | [] => [(k, v)]
  | (k', v') :: rest => if k' = k then (k, v) :: rest else (k', v') :: hmInsert rest k v

/-- First value bound to a key in an association list. -/
def assocLookup (m : List (Bytes × Bytes)) (k : Bytes) : Option Bytes :=
  match m with
  | [] => none
  | (k', v) :: rest => if k' = k then some v else assocLookup rest k

/-- ASCII bytes of the Rust rendering of `true`. -/
def trueLit : Bytes := [116, 114, 117, 101]

/-- ASCII bytes of the Rust rendering of `false`. -/
def falseLit : Bytes := [102, 97, 108, 115, 101]

mutual

/-- Model of `CsvWriter::flatten_object`: walk the (key-sorted) object entries,
extending dot-notation keys. -/
def flattenObj (pre : Bytes) : List (Bytes × Json) → List (Bytes × Bytes) → List (Bytes × Bytes)
  | [], acc => acc
  | (key, v) :: rest, acc =>
    let newKey := if pre.isEmpty then key else pre ++ 46 :: key
    flattenObj pre rest (flattenVal newKey v acc)

/-- The per-value match arm of `flatten_object`: nested objects recurse, arrays
get indexed keys, primitives stringify (`null` becomes the empty string). -/
def flattenVal (newKey : Bytes) : Json → List (Bytes × Bytes) → List (Bytes × Bytes)
  | Json.obj nested, acc => flattenObj newKey nested acc
  | Json.arr items, acc => flattenArrItems newKey 0 items acc
  | Json.str s, acc => hmInsert acc newKey s
  | Json.num _ lit, acc => hmInsert acc newKey lit
  | Json.bool b, acc => hmInsert acc newKey (if b then trueLit else falseLit)
  | Json.null, acc => hmInsert acc newKey []

/-- The array arm of `flatten_object`: items get keys `<key>.<index>`; objects
recurse, primitives stringify, a nested array is serialized as a JSON string. -/
def flattenArrItems (newKey : Bytes) (i : Nat) : List Json → List (Bytes × Bytes) → List (Bytes × Bytes)
  | [], acc => acc
  | item :: rest, acc =>
    let ik := newKey ++ 46 :: natLit i
    let acc :=
      match item with
      | Json.obj nested => flattenObj ik nested acc
      | Json.str s => hmInsert acc ik s
      | Json.num _ lit => hmInsert acc ik lit
      | Json.bool b => hmInsert acc ik (if b then trueLit else falseLit)
      | Json.null => hmInsert acc ik []
      | Json.arr nestedArr => hmInsert acc ik (serializeJson (Json.arr nestedArr))
    flattenArrItems newKey (i + 1) rest acc

end

/-- Double internal quotes (the quoted-cell escaping of `write_csv_row`). -/
def doubleQuotes : Bytes → Bytes
  | [] => []
  | b :: rest => (if b = 34 then [34, 34] else [b]) ++ doubleQuotes rest

/-- One cell of `CsvWriter::write_csv_row`: quoted (with doubled internal
quotes) iff it contains a comma, a quote or a newline. -/
def csvRowCell (v : Bytes) : Bytes :=
  if v.any (fun b => b = 44 ∨ b = 34 ∨ b = 10) then 34 :: doubleQuotes v ++ [34]
  else v

/-- Model of `CsvWriter::write_csv_row`: comma-joined cells plus a newline. -/
def writeCsvRow (values : List Bytes) : Bytes :=
  List.intercalate [44] (values.map csvRowCell) ++ [10]

/-- State of `CsvWriter`: the frozen header vector and the written flag. -/
structure CsvWriter where
  headers : List Bytes
  headersWritten : Bool
deriving DecidableEq

/-- Constructor `CsvWriter::new`. -/
def CsvWriter.new : CsvWriter := ⟨[], false⟩

/-- The header row cells for a record: the union of the record's flattened keys
with the current headers, sorted lexicographically (HashSet then `sort`). -/
def sortedUnionKeys (fields : List (Bytes × Bytes)) (headers : List Bytes) : List Bytes :=
  insSort bytesLe ((fields.map Prod.fst) ++ headers).dedup

/-- The data row for a record under a frozen header: one cell per header
column, the empty string when the record lacks that key; keys outside the
header produce nothing. -/
def rowValues (headers : List Bytes) (fields : List (Bytes × Bytes)) : List Bytes :=
  headers.map (fun h => (assocLookup fields h).getD [])

/-- Model of `CsvWriter::process_json_line`: parse the NDJSON line; on a JSON
object, flatten it, emit the header row once (on the first object seen,
freezing the sorted key set) and then the data row; on a parse failure or a
non-object value, emit nothing.  The source returns `Ok` unconditionally. -/
def CsvWriter.processJsonLine (w : CsvWriter) (line : Bytes) : Bytes × CsvWriter :=
  match jsonParse line with
  | some (Json.obj entries) =>
    let fields := flattenObj [] entries []
    let sortedKeys := sortedUnionKeys fields w.headers
    if !w.headersWritten then
      let w' : CsvWriter := ⟨sortedKeys, true⟩
      (writeCsvRow sortedKeys ++ writeCsvRow (rowValues sortedKeys fields), w')
    else
      (writeCsvRow (rowValues w.headers fields), w)
  | _ => ([], w)

/-- Model of `CsvWriter::finish`: nothing to flush. -/
def CsvWriter.finish (w : CsvWriter) : Bytes × CsvWriter := ([], w)

/-! ### Format detection (detect.rs, the CSV path used by auto-detection) -/

/-- Model of `detect::trim_ascii`: strip leading and trailing space, tab,
carriage return and line feed bytes. -/
def trimAsciiB (s : Bytes) : Bytes :=
  (s.dropWhile (fun b => isJsonWs b)).reverse.dropWhile (fun b => isJsonWs b) |>.reverse

/-- Model of `detect::strip_bom`. -/
def stripBom (s : Bytes) : Bytes :=
  if s.take 3 = [239, 187, 191] then s.drop 3 else s

/-- All newline-separated segments of a sample (Rust `slice::split` on the
newline byte, which includes a trailing empty segment). -/
def splitAllNl (s : Bytes) : List Bytes :=
  (splitNl s).1 ++ [(splitNl s).2]

/-- Model of `detect::trim_line`: strip one trailing carriage return, then
trim ASCII whitespace. -/
def trimLineB (line : Bytes) : Bytes :=
  trimAsciiB (if line.getLast? = some 13 then line.dropLast else line)

/-- Model of `detect::first_non_empty_line`: the first of the first 16
segments that is nonempty after trimming. -/
def firstNonEmptyLine (s : Bytes) : Option Bytes :=
  (((splitAllNl s).take 16).map trimLineB).find? (fun l => !l.isEmpty)

/-- Scan loop shared by `detect::count_delimiters` (quote-aware counting with
doubled-quote skipping; the quote byte is the literal double quote). -/
def countDelimsAux (delim : Nat) : Nat → Bytes → Bool → Nat → Nat
  | 0, _, _, count => count
  | _ + 1, [], _, count => count
  | fuel + 1, b :: rest, inQ, count =>
    if b = 34 then
      match rest with
      | n :: rest' =>
        if inQ ∧ n = 34 then countDelimsAux delim fuel rest' inQ count
        else countDelimsAux delim fuel rest (!inQ) count
      | [] => countDelimsAux delim fuel rest (!inQ) count
    else if b = delim ∧ !inQ then countDelimsAux delim fuel rest inQ (count + 1)
    else countDelimsAux delim fuel rest inQ count

/-- Model of `detect::count_delimiters`. -/
def countDelimiters (line : Bytes) (delim : Nat) : Nat :=
  countDelimsAux delim (line.length + 1) line false 0

/-- The CSV delimiter candidate set: comma, tab, semicolon, pipe. -/
def csvDelimCandidates : List Nat := [44, 9, 59, 124]

/-- Per-candidate totals over the sampled lines: total occurrence count and
number of lines containing at least one occurrence. -/
def delimStats (lines : List Bytes) (delim : Nat) : Nat × Nat :=
  lines.foldl
    (fun (acc : Nat × Nat) line =>
      let c := countDelimiters line delim
      (acc.1 + c, acc.2 + if c > 0 then 1 else 0))
    (0, 0)

/-- Model of `detect::detect_delimiter`: over up to 10 nonempty trimmed lines,
score each candidate by (lines-with-occurrence / line-count) x total-count and
take the best strictly-greater score in candidate order; comma on no signal.
The f64 score arithmetic is modelled exactly over the rationals. -/
def detectDelimiter (sample : Bytes) : Nat :=
  let lines := (((splitAllNl sample).take 10).map trimLineB).filter (fun l => !l.isEmpty)
  let lineCount := lines.length
  if lineCount = 0 then 44
  else
    let best := csvDelimCandidates.foldl
      (fun (best : Nat × Rat) cand =>
        let (total, linesWith) := delimStats lines cand
        if total = 0 then best
        else
          let score : Rat := ((linesWith : Rat) / (lineCount : Rat)) * (total : Rat)
          if score > best.2 then (cand, score) else best)
      (44, 0)
    if best.2 = 0 then 44 else best.1

/-- Scan loop of `detect::split_csv_fields` (quote-aware splitting; a doubled
quote in quotes is a literal quote). -/
def splitCsvFieldsAux (delim : Nat) : Nat → Bytes → Bool → Bytes → List Bytes → List Bytes
  | 0, _, _, field, fields => (field.reverse :: fields).reverse
  | _ + 1, [], _, field, fields => (field.reverse :: fields).reverse
  | fuel + 1, b :: rest, inQ, field, fields =>
    if b = 34 then
      match rest with
      | n :: rest' =>
        if inQ ∧ n = 34 then splitCsvFieldsAux delim fuel rest' inQ (34 :: field) fields
        else splitCsvFieldsAux delim fuel rest (!inQ) field fields
      | [] => splitCsvFieldsAux delim fuel rest (!inQ) field fields
    else if b = delim ∧ !inQ then
      splitCsvFieldsAux delim fuel rest inQ [] (field.reverse :: fields)
    else splitCsvFieldsAux delim fuel rest inQ (b :: field) fields

/-- Model of `detect::split_csv_fields`. -/
def splitCsvFields (line : Bytes) (delim : Nat) : List Bytes :=
  splitCsvFieldsAux delim (line.length + 1) line false [] []

/-- Result of `detect::detect_csv` (field strings kept as their raw bytes; the
lossy UTF-8 decoding is the identity on valid UTF-8 and no consumer of the
field list is claim-relevant). -/
structure CsvDetection where
  delimiter : Nat
  fields : List Bytes
deriving DecidableEq

/-- Model of `detect::detect_csv`: trim, strip the BOM, find the first
non-empty line, pick the delimiter over the whole sample and split that line. -/
def detectCsv (sample : Bytes) : Option CsvDetection :=
  let sample := trimAsciiB sample
  if sample.isEmpty then none
  else
    let sample := stripBom sample
    match firstNonEmptyLine sample with
    | none => none
    | some line =>
      let delimiter := detectDelimiter sample
      some ⟨delimiter, splitCsvFields line delimiter⟩

/-! ### Statistics (stats.rs `Stats`) -/

/-- The statistics counters (u64/usize counters as naturals; the wall-clock
durations fed to the time counters are not modelled and enter as zero). -/
structure Stats where
  bytesIn : Nat
  bytesOut : Nat
  chunksIn : Nat
  recordsProcessed : Nat
  parseTimeNs : Nat
  transformTimeNs : Nat
  writeTimeNs : Nat
  maxBufferSize : Nat
  currentPartialSize : Nat
deriving DecidableEq

/-- The all-zero `Stats::default`. -/
def Stats.default : Stats := ⟨0, 0, 0, 0, 0, 0, 0, 0, 0⟩

/-- Model of `Stats::record_chunk`. -/
def Stats.recordChunk (s : Stats) (bytes : Nat) : Stats :=
  { s with bytesIn := s.bytesIn + bytes, chunksIn := s.chunksIn + 1 }

/-- Model of `Stats::record_output`. -/
def Stats.recordOutput (s : Stats) (bytes : Nat) : Stats :=
  { s with bytesOut := s.bytesOut + bytes }

/-- Model of `Stats::record_records`. -/
def Stats.recordRecords (s : Stats) (count : Nat) : Stats :=
  { s with recordsProcessed := s.recordsProcessed + count }

/-- Model of `Stats::record_parse_time` (durations not modelled: adds zero). -/
def Stats.recordParseTime (s : Stats) : Stats :=
  { s with parseTimeNs := s.parseTimeNs + 0 }

/-- Model of `Stats::update_buffer_size`. -/
def Stats.updateBufferSize (s : Stats) (size : Nat) : Stats :=
  { s with currentPartialSize := size,
           maxBufferSize := if size > s.maxBufferSize then size else s.maxBufferSize }

/-! ### Converter state machine (lib.rs `Converter`)

The embedding covers the CSV/NDJSON/JSON pipelines without a transform plan;
the XML pipelines and the transform-engine pipelines of `ConverterState` are
outside this state type (their building blocks relevant to the claims are
embedded separately below). -/

/-- Input/output formats covered by the converter embedding. -/
inductive Format where
  | csv
  | ndjson
  | json
deriving DecidableEq

/-- Converter configuration (format.rs `ConverterConfig`, restricted to the
embedded pipelines: no xml_config, no transform plan). -/
structure ConverterConfig where
  inputFormat : Format
  outputFormat : Format
  chunkTargetBytes : Nat
  enableStats : Bool
  csvConfig : Option CsvConfig
deriving DecidableEq

/-- The embedded variants of lib.rs `ConverterState`, including the
`NeedsDetection` pre-state holding the buffered prefix. -/
inductive ConverterState where
  | csvPassthrough (p : CsvParser) (w : CsvWriter)
  | csvToNdjson (p : CsvParser)
  | csvToJson (p : CsvParser) (np : NdjsonParser) (isFirst : Bool)
  | ndjsonPassthrough (p : NdjsonParser)
  | ndjsonToJson (p : NdjsonParser) (isFirst : Bool)
  | ndjsonToCsv (p : NdjsonParser) (w : CsvWriter)
  | jsonPassthrough (p : JsonParser)
  | jsonToNdjson (p : JsonParser)
  | jsonToCsv (p : JsonParser) (w : CsvWriter)
  | needsDetection (buffer : Bytes)
deriving DecidableEq

/-- The converter: configuration, the state slot emptied by `finish`, and the
statistics. -/
structure Converter where
  debug : Bool
  config : ConverterConfig
  state : Option ConverterState
  stats : Stats
deriving DecidableEq

/-- Model of `Converter::create_state` on the embedded format pairs. -/
def createState (config : ConverterConfig) : ConverterState :=
  let csvCfg := config.csvConfig.getD CsvConfig.default
  match config.inputFormat, config.outputFormat with
  | Format.csv, Format.ndjson =>
    ConverterState.csvToNdjson (CsvParser.new csvCfg config.chunkTargetBytes)
  | Format.csv, Format.json =>
    ConverterState.csvToJson (CsvParser.new csvCfg config.chunkTargetBytes)
      (NdjsonParser.new config.chunkTargetBytes) true
  | Format.csv, Format.csv =>
    ConverterState.csvPassthrough (CsvParser.new csvCfg config.chunkTargetBytes) CsvWriter.new
  | Format.ndjson, Format.ndjson =>
    ConverterState.ndjsonPassthrough (NdjsonParser.new config.chunkTargetBytes)
  | Format.ndjson, Format.json =>
    ConverterState.ndjsonToJson (NdjsonParser.new config.chunkTargetBytes) true
  | Format.ndjson, Format.csv =>
    ConverterState.ndjsonToCsv (NdjsonParser.new config.chunkTargetBytes) CsvWriter.new
  | Format.json, Format.json => ConverterState.jsonPassthrough JsonParser.new
  | Format.json, Format.ndjson => ConverterState.jsonToNdjson JsonParser.new
  | Format.json, Format.csv => ConverterState.jsonToCsv JsonParser.new CsvWriter.new

/-- Rust `str::lines` on a (UTF-8 valid) byte string: newline-separated
segments, no final empty segment, one trailing carriage return stripped per
line. -/
def strLines (s : Bytes) : List Bytes :=
  let sp := splitNl s
  let segs := if sp.2.isEmpty then sp.1 else sp.1 ++ [sp.2]
  segs.map (fun l => if l.getLast? = some 13 then l.dropLast else l)

/-- Whether Rust `str::trim` leaves a line empty (ASCII whitespace model:
space and the 0x09-0x0D controls; multi-byte Unicode whitespace is not
modelled). -/
def strTrimEmpty (l : Bytes) : Bool :=
  l.all (fun b => b == 32 || (9 ≤ b && b ≤ 13))

/-- The NDJSON-to-CSV feed loop appearing in the converter arms: each
non-blank line goes through `CsvWriter::process_json_line`, outputs
concatenated. -/
def writerLoop (w : CsvWriter) : List Bytes → Bytes × CsvWriter
  | [] => ([], w)
  | l :: ls =>
    if strTrimEmpty l then writerLoop w ls
    else
      let (o, w') := w.processJsonLine l
      let (rest, w'') := writerLoop w' ls
      (o ++ rest, w'')

/-- Record count of a parsed JSON document as used by the `JsonToNdjson` /
`JsonToCsv` / `JsonToXml` arms: array length, 1 for an object, 0 otherwise. -/
def jsonDocRecordCount (v : Json) : Nat :=
  match v with
  | Json.arr xs => xs.length
  | Json.obj _ => 1
  | _ => 0

/-- Record count used by the `JsonPassthrough` arm: array length, 1 for any
non-array value. -/
def jsonPassthroughRecordCount (v : Json) : Nat :=
  match v with
  | Json.arr xs => xs.length
  | _ => 1

/-- The NDJSON lines emitted by the `JsonToNdjson` arm for a parsed document:
one serialized line per array element, one line for a bare object, nothing
otherwise. -/
def jsonDocToNdjson (v : Json) : Bytes :=
  match v with
  | Json.arr xs => xs.foldl (fun acc e => acc ++ serializeJson e ++ [10]) []
  | Json.obj _ => serializeJson v ++ [10]
  | _ => []

/-- The per-element writer feed of the `JsonToCsv` arm. -/
def jsonDocToCsv (w : CsvWriter) (v : Json) : Bytes × CsvWriter :=
  match v with
  | Json.arr xs =>
    xs.foldl
      (fun (acc : Bytes × CsvWriter) e =>
        let (o, w') := acc.2.processJsonLine (serializeJson e)
        (acc.1 ++ o, w'))
      ([], w)
  | Json.obj _ =>
    let (o, w') := w.processJsonLine (serializeJson v)
    (o, w')
  | _ => ([], w)

/-- The partial-buffer total reported to `Stats::update_buffer_size` after a
successful push (the big match in `Converter::push`; unlisted states fall to
the zero catch-all, as in the source). -/
def partialSizeOf : Option ConverterState → Nat
  | some (ConverterState.csvPassthrough p _) => p.partialSize
  | some (ConverterState.csvToNdjson p) => p.partialSize
  | some (ConverterState.csvToJson p np _) => p.partialSize + np.partialSize
  | some (ConverterState.ndjsonPassthrough p) => p.partialSize
  | some (ConverterState.ndjsonToJson p _) => p.partialSize
  | some (ConverterState.ndjsonToCsv p _) => p.partialSize
  | some (ConverterState.jsonToNdjson _) => 0
  | some (ConverterState.jsonToCsv _ _) => 0
  | some (ConverterState.needsDetection buf) => buf.length
  | _ => 0

/-- Model of `Converter::push_internal`: take the state slot (a taken slot
means the converter is finished), dispatch on the pipeline, and reinstall the
new state only on success — an arm error leaves the slot empty, exactly as the
`?` early returns do after `self.state.take()` in the source. -/
def Converter.pushInternal (c : Converter) (chunk : Bytes) : Except ConvertError Bytes × Converter :=
  match c.state with
  | none => (Except.error (ConvertError.invalidConfig ("Converter already finished")), c)
  | some st =>
    let c := { c with state := none }
    match st with
    | ConverterState.csvPassthrough p w =>
      let (ndjson, p') := p.pushToNdjson chunk
      let c := { c with stats := c.stats.recordRecords (countNl ndjson) }
      if utf8Valid ndjson then
        let (out, w') := writerLoop w (strLines ndjson)
        (Except.ok out, { c with state := some (ConverterState.csvPassthrough p' w') })
      else (Except.error ConvertError.utf8Error, c)
    | ConverterState.csvToNdjson p =>
      let (result, p') := p.pushToNdjson chunk
      let c := { c with stats := c.stats.recordRecords (countNl result) }
      (Except.ok result, { c with state := some (ConverterState.csvToNdjson p') })
    | ConverterState.csvToJson p np isFirst =>
      let (ndjson, p') := p.pushToNdjson chunk
      let c := { c with stats := c.stats.recordRecords (countNl ndjson) }
      let (result, np') := np.toJsonArray ndjson isFirst false
      (Except.ok result, { c with state := some (ConverterState.csvToJson p' np' false) })
    | ConverterState.ndjsonPassthrough p =>
      match p.push chunk with
      | Except.error e => (Except.error e, c)
      | Except.ok (result, p') =>
        let c := { c with stats := c.stats.recordRecords (countNl chunk) }
        (Except.ok result, { c with state := some (ConverterState.ndjsonPassthrough p') })
    | ConverterState.ndjsonToJson p isFirst =>
      let c := { c with stats := c.stats.recordRecords (countNl chunk) }
      let (result, p') := p.toJsonArray chunk isFirst false
      (Except.ok result, { c with state := some (ConverterState.ndjsonToJson p' false) })
    | ConverterState.ndjsonToCsv p w =>
      match p.push chunk with
      | Except.error e => (Except.error e, c)
      | Except.ok (ndjson, p') =>
        let c := { c with stats := c.stats.recordRecords (countNl chunk) }
        if utf8Valid ndjson then
          let (out, w') := writerLoop w (strLines ndjson)
          (Except.ok out, { c with state := some (ConverterState.ndjsonToCsv p' w') })
        else (Except.error ConvertError.utf8Error, c)
    | ConverterState.jsonPassthrough jp =>
      let c :=
        if utf8Valid chunk then
          match jsonParse chunk with
          | some v => { c with stats := c.stats.recordRecords (jsonPassthroughRecordCount v) }
          | none => c
        else c
      (Except.ok chunk, { c with state := some (ConverterState.jsonPassthrough jp) })
    | ConverterState.jsonToNdjson jp =>
      if !utf8Valid chunk then (Except.error ConvertError.utf8Error, c)
      else
        match jsonParse chunk with
        | none => (Except.error (ConvertError.jsonParse ("invalid JSON document")), c)
        | some v =>
          let c := { c with stats := c.stats.recordRecords (jsonDocRecordCount v) }
          (Except.ok (jsonDocToNdjson v), { c with state := some (ConverterState.jsonToNdjson jp) })
    | ConverterState.jsonToCsv jp w =>
      if !utf8Valid chunk then (Except.error ConvertError.utf8Error, c)
      else
        match jsonParse chunk with
        | none => (Except.error (ConvertError.jsonParse ("invalid JSON document")), c)
        | some v =>
          let c := { c with stats := c.stats.recordRecords (jsonDocRecordCount v) }
          let (out, w') := jsonDocToCsv w v
          (Except.ok out, { c with state := some (ConverterState.jsonToCsv jp w') })
    | ConverterState.needsDetection buf =>
      (Except.error (ConvertError.invalidConfig ("Unhandled converter state in push_internal")),
       { c with state := some (ConverterState.needsDetection buf) })

/-- The tail of `Converter::push` after the detection pre-state is resolved:
`push_internal`, then the output/parse-time/buffer statistics on success. -/
def Converter.pushTail (c : Converter) (chunk : Bytes) : Except ConvertError Bytes × Converter :=
  match c.pushInternal chunk with
  | (Except.error e, c') => (Except.error e, c')
  | (Except.ok result, c') =>
    let newStats :=
      Stats.updateBufferSize ((c'.stats.recordOutput result.length).recordParseTime)
        (partialSizeOf c'.state)
    let c' := if c'.config.enableStats then { c' with stats := newStats } else c'
    (Except.ok result, c')

/-- Model of `Converter::auto_detect_and_initialize`: for CSV input, write the
detected delimiter into the CSV config (creating it from the default if
absent); other embedded input formats need no detection.  Then install the
active state built from the (possibly updated) configuration. -/
def Converter.autoDetectInit (c : Converter) (sample : Bytes) : Converter :=
  let config :=
    match c.config.inputFormat with
    | Format.csv =>
      match detectCsv sample with
      | some d =>
        let csvCfg := c.config.csvConfig.getD CsvConfig.default
        { c.config with csvConfig := some { csvCfg with delimiter := d.delimiter } }
      | none => c.config
    | _ => c.config
  { c with config := config, state := some (createState config) }

/-- Model of `Converter::push`: record the chunk statistics, then, in the
`NeedsDetection` state, buffer the chunk and either wait (returning empty
output while under 256 bytes on a nonempty chunk) or detect and replay the
whole buffered prefix through the freshly created state.  The recursive
`self.push(&detection_sample)` of the source is unrolled one step (the
created state is never `NeedsDetection`), which re-records the chunk
statistics for the replayed sample exactly as the source does. -/
def Converter.push (c : Converter) (chunk : Bytes) : Except ConvertError Bytes × Converter :=
  let c := if c.config.enableStats then { c with stats := c.stats.recordChunk chunk.length } else c
  match c.state with
  | some (ConverterState.needsDetection buf) =>
    let buf' := buf ++ chunk
    if buf'.length < 256 ∧ !chunk.isEmpty then
      (Except.ok [], { c with state := some (ConverterState.needsDetection buf') })
    else
      let c' := Converter.autoDetectInit { c with state := none } buf'
      let c' := if c'.config.enableStats then { c' with stats := c'.stats.recordChunk buf'.length } else c'
      c'.pushTail buf'
  | _ => c.pushTail chunk

/-- The state-slot match of `Converter::finish` (everything after the
`NeedsDetection` pre-branch): take the slot — it is never reinstalled — and
flush the pipeline stages of the taken state. -/
def Converter.finishCore (c : Converter) : Except ConvertError Bytes × Converter :=
  match c.state with
  | none => (Except.error (ConvertError.invalidConfig ("Converter already finished")), c)
  | some st =>
    let c := { c with state := none }
    let r : Except ConvertError Bytes × Converter :=
      match st with
      | ConverterState.csvPassthrough p w =>
        let (ndjson, _) := p.finish
        if utf8Valid ndjson then
          let (out, w') := writerLoop w (strLines ndjson)
          let (fin, _) := w'.finish
          (Except.ok (out ++ fin), c)
        else (Except.error ConvertError.utf8Error, c)
      | ConverterState.csvToNdjson p => (Except.ok (p.finish).1, c)
      | ConverterState.csvToJson p np isFirstFlag =>
        let (ndjson, _) := p.finish
        let (out, np1) := np.toJsonArray ndjson isFirstFlag false
        let (closing, np2) := np1.toJsonArray [] false true
        match np2.finish with
        | Except.error e => (Except.error e, c)
        | Except.ok (remaining, _) => (Except.ok (out ++ closing ++ remaining), c)
      | ConverterState.ndjsonPassthrough p =>
        match p.finish with
        | Except.error e => (Except.error e, c)
        | Except.ok (o, _) => (Except.ok o, c)
      | ConverterState.ndjsonToJson p _ =>
        let (out, p1) := p.toJsonArray [] false true
        match p1.finish with
        | Except.error e => (Except.error e, c)
        | Except.ok (remaining, _) => (Except.ok (out ++ remaining), c)
      | ConverterState.ndjsonToCsv p w =>
        match p.finish with
        | Except.error e => (Except.error e, c)
        | Except.ok (ndjson, _) =>
          if utf8Valid ndjson then
            let (out, w') := writerLoop w (strLines ndjson)
            let (fin, _) := w'.finish
            (Except.ok (out ++ fin), c)
          else (Except.error ConvertError.utf8Error, c)
      | ConverterState.jsonPassthrough _ => (Except.ok [], c)
      | ConverterState.jsonToNdjson _ => (Except.ok [], c)
      | ConverterState.jsonToCsv _ w => (Except.ok (w.finish).1, c)
      | ConverterState.needsDetection _ => (Except.ok [], c)
    match r with
    | (Except.ok out, c') =>
      let c' :=
        if c'.config.enableStats then { c' with stats := c'.stats.recordOutput out.length }
        else c'
      (Except.ok out, c')
    | e => e

/-- Model of `Converter::finish`: in `NeedsDetection` with buffered data,
detect, push the whole buffered prefix through the initialized pipeline and
finish it (the recursive `self.finish()` is unrolled: after that push the
state is active or already taken); otherwise the state-slot match. -/
def Converter.finish (c : Converter) : Except ConvertError Bytes × Converter :=
  match c.state with
  | some (ConverterState.needsDetection buf) =>
    if !buf.isEmpty then
      let c1 := c.autoDetectInit buf
      match c1.push buf with
      | (Except.error e, c2) => (Except.error e, c2)
      | (Except.ok o1, c2) =>
        match c2.finishCore with
        | (Except.error e, c3) => (Except.error e, c3)
        | (Except.ok o2, c3) => (Except.ok (o1 ++ o2), c3)
    else c.finishCore
  | _ => c.finishCore

/-- Build a converter in its initial state for a configuration (the
`with_config` path without auto-detection pending). -/
def Converter.mk0 (config : ConverterConfig) : Converter :=
  ⟨false, config, some (createState config), Stats.default⟩

/-- Run a converter over a chunk sequence: push each chunk, then finish,
concatenating the outputs; stops at the first error (as a caller would). -/
def runConv (c : Converter) : List Bytes → Except ConvertError Bytes × Converter
  | [] => c.finish
  | ch :: rest =>
    let step := c.push ch
    match step.1 with
    | Except.error e => (Except.error e, step.2)
    | Except.ok o =>
      let next := runConv step.2 rest
      match next.1 with
      | Except.error e => (Except.error e, next.2)
      | Except.ok o2 => (Except.ok (o ++ o2), next.2)

/-! ### XML record translation (xml_parser.rs `JsonValue`, `insert_value`,
`json_value_to_output`) -/

/-- The intermediate JSON tree of the XML parser (xml_parser.rs `JsonValue`):
strings, objects, arrays.  The object map (a Rust HashMap) is modelled as an
association list in insertion order; serialization sorts the keys, so the
iteration order of the Rust map is immaterial. -/
inductive XmlValue where
  | str (s : Bytes)
  | obj (entries : List (Bytes × XmlValue))
  | arr (xs : List XmlValue)

/-- Lookup in the XML object map (`HashMap::get`). -/
def xmlLookup (m : List (Bytes × XmlValue)) (k : Bytes) : Option XmlValue :=
  match m with
  | [] => none
  | (k', v) :: rest => if k' = k then some v else xmlLookup rest k

/-- Replace the binding of a present key in the XML object map (the in-place
update through `HashMap::get_mut`). -/
def xmlReplace (m : List (Bytes × XmlValue)) (k : Bytes) (v : XmlValue) : List (Bytes × XmlValue) :=
  match m with
  | [] => []
  | (k', v') :: rest => if k' = k then (k, v) :: rest else (k', v') :: xmlReplace rest k v

/-- Model of `XmlParser::insert_value`: a fresh key binds directly; a second
occurrence promotes the existing value to a two-element array; later
occurrences append to the existing array. -/
def insertValue (m : List (Bytes × XmlValue)) (k : Bytes) (v : XmlValue) : List (Bytes × XmlValue) :=
  match xmlLookup m k with
  | some (XmlValue.arr xs) => xmlReplace m k (XmlValue.arr (xs ++ [v]))
  | some existing => xmlReplace m k (XmlValue.arr [existing, v])
  | none => m ++ [(k, v)]

/-- Key list of an XML object map. -/
def xmlKeys (m : List (Bytes × XmlValue)) : List Bytes := m.map Prod.fst

mutual

/-- Model of `XmlParser::json_value_to_output`: strings are escaped and
quoted; arrays serialize their elements in order; objects collect their keys,
sort them, and emit each key that looks up successfully. -/
def jsonValueToOutput : XmlValue → Bytes
  | XmlValue.str s => 34 :: escapeJsonString s ++ [34]
  | XmlValue.arr xs => 91 :: xmlArrOut xs ++ [93]
  | XmlValue.obj m => 123 :: xmlObjOut m true (insSort bytesLe (xmlKeys m)) ++ [125]
termination_by x => (sizeOf x, 0)
decreasing_by
  all_goals apply Prod.Lex.left
  all_goals simp
  all_goals omega

/-- Element loop of the array arm of `json_value_to_output`. -/
def xmlArrOut : List XmlValue → Bytes
  | [] => []
  | [x] => jsonValueToOutput x
  | x :: y :: rest => jsonValueToOutput x ++ 44 :: xmlArrOut (y :: rest)
termination_by xs => (sizeOf xs, 0)
decreasing_by
  all_goals apply Prod.Lex.left
  all_goals simp
  all_goals omega

/-- Key loop of the object arm of `json_value_to_output`: iterate the given
(sorted) keys, emitting each present entry, with a comma before every entry
after the first emitted one. -/
def xmlObjOut (m : List (Bytes × XmlValue)) (first : Bool) : List Bytes → Bytes
  | [] => []
  | k :: ks =>
    match h : xmlLookup m k with
    | some v =>
      (if !first then [44] else []) ++
      34 :: escapeJsonString k ++ [34, 58] ++ jsonValueToOutput v ++ xmlObjOut m false ks
    | none => xmlObjOut m first ks
termination_by ks => (sizeOf m, ks.length + 1)
decreasing_by
  all_goals
    first
      | (apply Prod.Lex.right; simp)
      | (apply Prod.Lex.left
         have key : ∀ (mm : List (Bytes × XmlValue)) (kk : Bytes) (vv : XmlValue),
             xmlLookup mm kk = some vv → sizeOf vv < sizeOf mm := by
           intro mm kk vv hh
           induction mm with
           | nil => simp [xmlLookup] at hh
           | cons e rest ih =>
             obtain ⟨k', v'⟩ := e
             simp only [xmlLookup] at hh
             by_cases hk : k' = kk
             · simp [hk] at hh
               subst hh
               first
                 | (simp; omega)
                 | simp
             · simp [hk] at hh
               have h2 := ih hh
               have h3 : sizeOf rest < sizeOf ((k', v') :: rest) := by
                 first
                   | (simp; omega)
                   | simp
               omega
         exact key _ _ _ (by assumption))

end

/-! ### Transform expression evaluation (transform.rs `Expr`, `to_f64`) -/

/-- Exact model of an f64 value: a rational (binary rounding abstracted),
a signed infinity, or NaN.  Signed zero is not distinguished. -/
inductive RFloat where
  | finite (q : Rat)
  | inf (neg : Bool)
  | nan
deriving DecidableEq

/-- Sign (negativity) of an f64 model value (NaN arbitrary). -/
def RFloat.isNeg : RFloat → Bool
  | RFloat.finite q => q < 0
  | RFloat.inf n => n
  | RFloat.nan => false

/-- IEEE negation. -/
def rfNeg : RFloat → RFloat
  | RFloat.finite q => RFloat.finite (-q)
  | RFloat.inf n => RFloat.inf (!n)
  | RFloat.nan => RFloat.nan

/-- IEEE addition (exact on finite values). -/
def rfAdd : RFloat → RFloat → RFloat
  | RFloat.finite a, RFloat.finite b => RFloat.finite (a + b)
  | RFloat.inf n, RFloat.finite _ => RFloat.inf n
  | RFloat.finite _, RFloat.inf n => RFloat.inf n
  | RFloat.inf n, RFloat.inf m => if n = m then RFloat.inf n else RFloat.nan
  | _, _ => RFloat.nan

/-- IEEE subtraction. -/
def rfSub (a b : RFloat) : RFloat := rfAdd a (rfNeg b)

/-- IEEE multiplication (exact on finite values; zero times infinity is NaN). -/
def rfMul : RFloat → RFloat → RFloat
  | RFloat.finite a, RFloat.finite b => RFloat.finite (a * b)
  | RFloat.inf n, RFloat.finite b =>
    if b = 0 then RFloat.nan else RFloat.inf (n != decide (b < 0))
  | RFloat.finite a, RFloat.inf n =>
    if a = 0 then RFloat.nan else RFloat.inf (n != decide (a < 0))
  | RFloat.inf n, RFloat.inf m => RFloat.inf (n != m)
  | _, _ => RFloat.nan

/-- IEEE division (exact on finite values; x/0 is a signed infinity for
nonzero x and NaN for 0/0; x divided by infinity is zero). -/
def rfDiv : RFloat → RFloat → RFloat
  | RFloat.finite a, RFloat.finite b =>
    if b = 0 then
      if a = 0 then RFloat.nan else RFloat.inf (a < 0)
    else RFloat.finite (a / b)
  | RFloat.inf n, RFloat.finite b => RFloat.inf (n != decide (b < 0))
  | RFloat.finite _, RFloat.inf _ => RFloat.finite 0
  | _, _ => RFloat.nan

/-- The number stored by `Number::from_f64(x).unwrap_or_else(|| Number::from(0))`:
the value for a finite result, zero for NaN or infinity. -/
def resultNum : RFloat → Rat
  | RFloat.finite q => q
  | _ => 0

/-- Decimal literal for an integral rational (the rendering of computed
non-integral f64 results is not modelled; no claim consumes it). -/
def ratLit (q : Rat) : Bytes :=
  if q.den = 1 then intLit q.num else []

/-- Lowercase an ASCII byte. -/
def asciiLower (b : Nat) : Nat := if 65 ≤ b ∧ b ≤ 90 then b + 32 else b

/-- Uppercase an ASCII byte. -/
def asciiUpper (b : Nat) : Nat := if 97 ≤ b ∧ b ≤ 122 then b - 32 else b

/-- Model of Rust `str::parse::<f64>()`: optional sign, then (case-insensitive)
inf / infinity / nan or a decimal significand with optional exponent; the
whole string must be consumed.  Finite values are exact. -/
def parseF64 (s : Bytes) : Option RFloat :=
  let (neg, s1) := match s with
    | 45 :: r => (true, r)
    | 43 :: r => (false, r)
    | _ => (false, s)
  let low := s1.map asciiLower
  if low = [105, 110, 102] ∨ low = [105, 110, 102, 105, 110, 105, 116, 121] then
    some (RFloat.inf neg)
  else if low = [110, 97, 110] then some RFloat.nan
  else
    let (intDs, r1) := readDigits s1
    let (fracDs, r2) :=
      match r1 with
      | 46 :: r => readDigits r
      | _ => ([], r1)
    let hadDot := match r1 with
      | 46 :: _ => true
      | _ => false
    if intDs.isEmpty ∧ fracDs.isEmpty then none
    else if !hadDot ∧ !(r2 = r1) then none
    else
      let (expOk, expNeg, expDs, r3) :=
        match r2 with
        | b :: r =>
          if b = 101 ∨ b = 69 then
            let (en, rr) := match r with
              | 45 :: r' => (true, r')
              | 43 :: r' => (false, r')
              | _ => (false, r)
            let (ds, r4) := readDigits rr
            if ds.isEmpty then (false, false, ([] : Bytes), r4)
            else (true, en, ds, r4)
          else (true, false, ([] : Bytes), r2)
        | [] => (true, false, ([] : Bytes), r2)
      if !expOk ∨ !r3.isEmpty then none
      else
        let exp10 : Int :=
          (if expNeg then -(digitsVal expDs : Int) else (digitsVal expDs : Int)) - (fracDs.length : Int)
        let mag : Rat := (digitsVal (intDs ++ fracDs) : Rat) * (10 : Rat) ^ exp10
        some (RFloat.finite (if neg then -mag else mag))

/-- Model of transform.rs `to_f64`: numbers pass through (`Number::as_f64`),
strings go through the f64 parser, booleans map to one and zero, everything
else is not coercible. -/
def toF64 : Json → Option RFloat
  | Json.num q _ => some (RFloat.finite q)
  | Json.str s => parseF64 s
  | Json.bool b => some (RFloat.finite (if b then 1 else 0))
  | _ => none

/-- The binary operators of the expression language (transform.rs `BinaryOp`). -/
inductive BinaryOp where
  | add
  | subtract
  | multiply
  | divide
deriving DecidableEq

/-- Apply a binary operator on the f64 model. -/
def applyBinaryOp : BinaryOp → RFloat → RFloat → RFloat
  | BinaryOp.add, a, b => rfAdd a b
  | BinaryOp.subtract, a, b => rfSub a b
  | BinaryOp.multiply, a, b => rfMul a b
  | BinaryOp.divide, a, b => rfDiv a b

/-- The compiled expression AST (transform.rs `Expr`). -/
inductive Expr where
  | literal (v : Json)
  | field (name : Bytes)
  | binary (op : BinaryOp) (left right : Expr)
  | function (name : Bytes) (args : List Expr)
  | unaryNeg (e : Expr)

/-- A record as seen by the evaluator: the entry list of a parsed JSON object
(`serde_json::Map`, key-sorted). -/
abbrev TRecord := List (Bytes × Json)

/-- Lookup in a record. -/
def recLookup (m : TRecord) (k : Bytes) : Option Json :=
  match m with
  | [] => none
  | (k', v) :: rest => if k' = k then some v else recLookup rest k

/-- The JSON number produced for a computed f64 result. -/
def numOf (r : RFloat) : Json :=
  Json.num (resultNum r) (ratLit (resultNum r))

mutual

/-- Model of `Expr::evaluate`: literals and field lookups (absent fields give
null); unary minus and the four binary operators coerce through `to_f64` and
error on non-numeric operands; function calls dispatch by name. -/
def Expr.evaluate : Expr → TRecord → Except ConvertError Json
  | Expr.literal v, _ => Except.ok v
  | Expr.field name, record => Except.ok ((recLookup record name).getD Json.null)
  | Expr.unaryNeg e, record =>
    match Expr.evaluate e record with
    | Except.error er => Except.error er
    | Except.ok v =>
      match toF64 v with
      | none => Except.error (ConvertError.invalidConfig ("Unary minus expects a numeric value"))
      | some n => Except.ok (numOf (rfNeg n))
  | Expr.binary op l r, record =>
    match Expr.evaluate l record with
    | Except.error er => Except.error er
    | Except.ok lv =>
      match Expr.evaluate r record with
      | Except.error er => Except.error er
      | Except.ok rv =>
        match toF64 lv with
        | none => Except.error (ConvertError.invalidConfig ("Binary operator expects numeric values"))
        | some ln =>
          match toF64 rv with
          | none => Except.error (ConvertError.invalidConfig ("Binary operator expects numeric values"))
          | some rn => Except.ok (numOf (applyBinaryOp op ln rn))
  | Expr.function name args, record => evaluateFunction name args record
termination_by e _ => (sizeOf e, 0)
decreasing_by
  all_goals apply Prod.Lex.left
  all_goals simp
  all_goals omega

/-- Model of transform.rs `evaluate_function` (string helpers are modelled at
the ASCII level: Rust Unicode case mapping and trimming beyond ASCII is not
modelled). -/
def evaluateFunction (name : Bytes) (args : List Expr) (record : TRecord) :
    Except ConvertError Json :=
  if name = [99, 111, 110, 99, 97, 116] then
    match concatLoop args record [] with
    | Except.error e => Except.error e
    | Except.ok out => Except.ok (Json.str out)
  else if name = [108, 111, 119, 101, 114] then
    match args with
    | [a] =>
      match Expr.evaluate a record with
      | Except.error e => Except.error e
      | Except.ok (Json.str s) => Except.ok (Json.str (s.map asciiLower))
      | Except.ok _ => Except.error (ConvertError.invalidConfig ("lower expects a string"))
    | _ => Except.error (ConvertError.invalidConfig ("lower expects 1 argument"))
  else if name = [117, 112, 112, 101, 114] then
    match args with
    | [a] =>
      match Expr.evaluate a record with
      | Except.error e => Except.error e
      | Except.ok (Json.str s) => Except.ok (Json.str (s.map asciiUpper))
      | Except.ok _ => Except.error (ConvertError.invalidConfig ("upper expects a string"))
    | _ => Except.error (ConvertError.invalidConfig ("upper expects 1 argument"))
  else if name = [116, 114, 105, 109] then
    match args with
    | [a] =>
      match Expr.evaluate a record with
      | Except.error e => Except.error e
      | Except.ok (Json.str s) => Except.ok (Json.str (trimAsciiB s))
      | Except.ok _ => Except.error (ConvertError.invalidConfig ("trim expects a string"))
    | _ => Except.error (ConvertError.invalidConfig ("trim expects 1 argument"))
  else if name = [99, 111, 97, 108, 101, 115, 99, 101] then
    coalesceLoop args record
  else Except.error (ConvertError.invalidConfig ("Unknown function"))
termination_by (sizeOf args, 2)
decreasing_by
  all_goals
    first
      | (apply Prod.Lex.right; omega)
      | (apply Prod.Lex.left; simp; omega)
      | (apply Prod.Lex.left; simp)

/-- The argument loop of `concat`: null appends nothing, strings append their
content, any other value appends its serde rendering. -/
def concatLoop : List Expr → TRecord → Bytes → Except ConvertError Bytes
  | [], _, acc => Except.ok acc
  | a :: rest, record, acc =>
    match Expr.evaluate a record with
    | Except.error e => Except.error e
    | Except.ok Json.null => concatLoop rest record acc
    | Except.ok (Json.str s) => concatLoop rest record (acc ++ s)
    | Except.ok other => concatLoop rest record (acc ++ serializeJson other)
termination_by args _ _ => (sizeOf args, 1)
decreasing_by
  all_goals
    first
      | (apply Prod.Lex.right; omega)
      | (apply Prod.Lex.left; simp; omega)
      | (apply Prod.Lex.left; simp)

/-- The argument loop of `coalesce`: the first non-null argument value, null
when all are null; later arguments are not evaluated. -/
def coalesceLoop : List Expr → TRecord → Except ConvertError Json
  | [], _ => Except.ok Json.null
  | a :: rest, record =>
    match Expr.evaluate a record with
    | Except.error e => Except.error e
    | Except.ok Json.null => coalesceLoop rest record
    | Except.ok v => Except.ok v
termination_by args _ => (sizeOf args, 1)
decreasing_by
  all_goals
    first
      | (apply Prod.Lex.right; omega)
      | (apply Prod.Lex.left; simp; omega)
      | (apply Prod.Lex.left; simp)

end

/-! ### Run functions and claim-side specifications -/

/-- Drive the NDJSON parser over a chunk sequence: push each chunk, then
finish, concatenating the outputs, stopping at the first error. -/
def ndjsonRunFrom (p : NdjsonParser) : List Bytes → Except ConvertError Bytes
  | [] =>
    match p.finish with
    | Except.error e => Except.error e
    | Except.ok (o, _) => Except.ok o
  | c :: cs =>
    match p.push c with
    | Except.error e => Except.error e
    | Except.ok (o, p') =>
      match ndjsonRunFrom p' cs with
      | Except.error e => Except.error e
      | Except.ok rest => Except.ok (o ++ rest)

/-- The NDJSON parser run from a fresh parser. -/
def ndjsonRun (chunkTarget : Nat) (chunks : List Bytes) : Except ConvertError Bytes :=
  ndjsonRunFrom (NdjsonParser.new chunkTarget) chunks

/-- Single-pass processing of a whole stream held by an NDJSON parser state
(partial line, output buffer): the complete lines, then the trailing line as
`finish` processes it.  Proof-side normal form for `ndjsonRunFrom`. -/
def ndjsonProcessAll (pl buf S : Bytes) : Except ConvertError Bytes :=
  let t := splitNl (pl ++ S)
  match processLinesM t.1 with
  | Except.error e => Except.error e
  | Except.ok o =>
    match
      (if !t.2.isEmpty then
        (if !(t.2.all isRustWs) then NdjsonParser.processLine t.2 else Except.ok [])
      else Except.ok []) with
    | Except.error e => Except.error e
    | Except.ok f => Except.ok (o ++ (f ++ buf))

/-- Modelled from the claim: the number of records in an NDJSON input — its
non-empty, non-whitespace-only lines, counting a final unterminated line. -/
def specNdjsonRecordCount (s : Bytes) : Nat :=
  (((splitNl s).1 ++ [(splitNl s).2]).filter lineKept).length

/-- The records the NDJSON-to-JSON wrapper emits for a byte stream: the kept
complete lines plus the kept final partial line. -/
def arrayRecords (s : Bytes) : List Bytes :=
  (splitNl s).1.filter lineKept ++
  (if lineKept (splitNl s).2 then [(splitNl s).2] else [])

/-- Comma-joined emission of already-kept items starting from a given item
count (the normal form of `emitItems` on filtered lines): each item after the
globally first is preceded by a comma. -/
def emitKept (t : Nat) : List Bytes → Bytes
  | [] => []
  | l :: ls => (if t > 0 then [44] else []) ++ l ++ emitKept (t + 1) ls

/-- Feed a sequence of NDJSON lines to the CSV writer, concatenating the
outputs (the way every converter arm drives `process_json_line`). -/
def csvWriterRun (w : CsvWriter) : List Bytes → Bytes × CsvWriter
  | [] => ([], w)
  | l :: ls =>
    let (o, w') := w.processJsonLine l
    let (rest, w'') := csvWriterRun w' ls
    (o ++ rest, w'')

/-- Modelled from the claim: the expected CSV output for a sequence of
records (already parsed objects): the first record fixes the header — its
flattened keys sorted — which is emitted once; every record then contributes
one data row under that frozen header (missing columns empty, keys outside
the header dropped by `rowValues`). -/
def csvWriterSpecOutput : List (List (Bytes × Json)) → Bytes
  | [] => []
  | r0 :: rs =>
    let fields0 := flattenObj [] r0 []
    let header := insSort bytesLe ((fields0.map Prod.fst).dedup)
    writeCsvRow header ++ writeCsvRow (rowValues header fields0) ++
    (rs.map (fun r => writeCsvRow (rowValues header (flattenObj [] r [])))).flatten

/-! ## Supporting lemmas -/

/-- Appending on the right refines the line decomposition: the complete lines
of `x ++ y` are those of `x` followed by those of the carried partial of `x`
prepended to `y`; the final partial comes from that second decomposition.
This is the algebra behind cross-chunk partial-line carry. -/
theorem splitNl_append (x y : Bytes) :
    splitNl (x ++ y) =
      ((splitNl x).1 ++ (splitNl ((splitNl x).2 ++ y)).1,
       (splitNl ((splitNl x).2 ++ y)).2) := by
  induction x with
  | nil => simp [splitNl]
  | cons b rest ih =>
    by_cases hb : b = 10
    · subst hb
      simp [splitNl, ih]
    · rcases h1 : splitNl rest with ⟨A, p0⟩
      rcases h2 : splitNl (p0 ++ y) with ⟨B1, P⟩
      have ih' := ih
      rw [h1] at ih'
      simp only at ih'
      rw [h2] at ih'
      simp only at ih'
      cases A with
      | nil =>
        cases B1 with
        | nil => simp [splitNl, hb, ih', h1, h2]
        | cons l ls => simp [splitNl, hb, ih', h1, h2]
      | cons a as_ => simp [splitNl, hb, ih', h1, h2]

/-- The carried partial never contains a newline. -/
theorem splitNl_partial_no_nl (s : Bytes) : ¬ (10 ∈ (splitNl s).2) := by
  induction s with
  | nil => simp [splitNl]
  | cons b rest ih =>
    by_cases hb : b = 10
    · subst hb; simp [splitNl, ih]
    · rcases h1 : splitNl rest with ⟨A, p0⟩
      rw [h1] at ih
      cases A with
      | nil =>
        simp_all [splitNl, hb, h1]
        omega
      | cons l ls => simp_all [splitNl, hb, h1]

/-- A newline-free byte string decomposes into no complete lines and itself
as the partial. -/
theorem splitNl_of_no_nl (p : Bytes) (h : ¬ (10 ∈ p)) : splitNl p = ([], p) := by
  induction p with
  | nil => simp [splitNl]
  | cons b rest ih =>
    have hb : b ≠ 10 := by intro hh; exact h (by simp [hh])
    have hrest : ¬ (10 ∈ rest) := by intro hh; exact h (by simp [hh])
    simp [splitNl, hb, ih hrest]

/-- Line processing distributes over concatenation of line lists (errors
propagate from the first failing line). -/
theorem processLinesM_append (a b : List Bytes) :
    processLinesM (a ++ b) =
      (match processLinesM a with
       | Except.error e => Except.error e
       | Except.ok o1 =>
         match processLinesM b with
         | Except.error e => Except.error e
         | Except.ok o2 => Except.ok (o1 ++ o2)) := by
  induction a with
  | nil =>
    simp [processLinesM]
    rcases processLinesM b with e | o <;> simp
  | cons l ls ih =>
    by_cases hk : lineKept l
    · simp only [List.cons_append, processLinesM, hk, if_pos]
      rcases h0 : NdjsonParser.processLine l with e | o
      · simp
      · simp only [List.append_eq]
        rw [ih]
        rcases h1 : processLinesM ls with e1 | o1 <;>
          rcases h2 : processLinesM b with e2 | o2 <;> simp
    · simp only [List.cons_append, processLinesM, hk, if_neg, Bool.false_eq_true,
        not_false_eq_true, List.append_eq]
      rw [ih]

/-- Normal form of an NDJSON parser run: pushing any chunk sequence and
finishing equals single-pass processing of the concatenated bytes (given the
cross-call invariant that the carried partial holds no newline). -/
theorem ndjsonRunFrom_eq (cs : List Bytes) :
    ∀ (jp : JsonParser) (pl buf : Bytes) (ct iw : Nat), ¬ (10 ∈ pl) →
      ndjsonRunFrom ⟨jp, pl, buf, ct, iw⟩ cs = ndjsonProcessAll pl buf cs.flatten := by
  induction cs with
  | nil =>
    intro jp pl buf ct iw hpl
    simp only [ndjsonRunFrom, NdjsonParser.finish, List.flatten_nil, ndjsonProcessAll,
      List.append_nil, splitNl_of_no_nl pl hpl, processLinesM]
    rcases h : (if !pl.isEmpty then
        (if !(pl.all isRustWs) then NdjsonParser.processLine pl else Except.ok []) else
        Except.ok []) with e | o <;> simp [h]
  | cons c cs ih =>
    intro jp pl buf ct iw hpl
    simp only [ndjsonRunFrom, NdjsonParser.push, List.flatten_cons]
    have hassoc : pl ++ (c ++ cs.flatten) = (pl ++ c) ++ cs.flatten := by simp
    rcases h1 : splitNl (pl ++ c) with ⟨ls1, p1⟩
    have hp1 : ¬ (10 ∈ p1) := by
      have := splitNl_partial_no_nl (pl ++ c)
      rw [h1] at this
      exact this
    have hsplit := splitNl_append (pl ++ c) cs.flatten
    rw [h1] at hsplit
    simp only at hsplit
    rcases h2 : splitNl (p1 ++ cs.flatten) with ⟨ls2, p2⟩
    rw [h2] at hsplit
    simp only [ndjsonProcessAll, hassoc, hsplit]
    rw [processLinesM_append ls1 ls2]
    rcases h3 : processLinesM ls1 with e | o1
    · simp
    · simp only []
      have ihx := ih jp p1 buf ct iw hp1
      simp only [ndjsonProcessAll, h2] at ihx
      rw [ihx]
      rcases h4 : processLinesM ls2 with e | o2
      · simp
      · simp only []
        rcases h5 : (if !p2.isEmpty then
            (if !(p2.all isRustWs) then NdjsonParser.processLine p2 else Except.ok []) else
            Except.ok []) with e | f <;> simp

/-- C1 (amended): chunk-boundary transparency holds for the NDJSON parser
`NdjsonParser::push`/`finish`: for any two chunk sequences with the same
concatenation, the run results (concatenated outputs, or the first error)
are identical — the output depends only on the concatenated bytes.  As
stated over every converter configuration the claim is false: the JSON-input
pipelines parse each pushed chunk as one complete JSON document (see the
counterexample), so the amendment restricts the invariant to the NDJSON
parser the spec's chunk-carry description is about. -/
theorem c1_theorem (ct : Nat) (csA csB : List Bytes) (h : csA.flatten = csB.flatten) :
    ndjsonRun ct csA = ndjsonRun ct csB := by
  unfold ndjsonRun NdjsonParser.new
  rw [ndjsonRunFrom_eq csA JsonParser.new [] [] ct 0 (by simp),
      ndjsonRunFrom_eq csB JsonParser.new [] [] ct 0 (by simp), h]

/-- Witness for C1: splitting an NDJSON stream mid-line gives the same run
result as pushing it whole. -/
theorem c1_witness :
    ndjsonRun 1024 [[123, 34, 97, 34], [58, 49, 125, 10]] =
      ndjsonRun 1024 [[123, 34, 97, 34, 58, 49, 125, 10]] :=
  c1_theorem 1024 [[123, 34, 97, 34], [58, 49, 125, 10]]
    [[123, 34, 97, 34, 58, 49, 125, 10]] (by decide)

/-- Counterexample for C1 as stated: for the JSON-to-NDJSON converter
configuration, the byte stream of the document with one field, pushed whole,
succeeds, while the same bytes split into two chunks make the first push fail
with a JSON parse error — the total output depends on where the boundary
fell. -/
theorem c1_counterexample :
    ([[123, 34, 97, 34, 58, 49, 125]] : List Bytes).flatten =
      ([[123, 34, 97], [34, 58, 49, 125]] : List Bytes).flatten ∧
    (runConv (Converter.mk0 ⟨Format.json, Format.ndjson, 1024, false, some CsvConfig.default⟩)
        [[123, 34, 97, 34, 58, 49, 125]]).1 =
      Except.ok [123, 34, 97, 34, 58, 49, 125, 10] ∧
    (runConv (Converter.mk0 ⟨Format.json, Format.ndjson, 1024, false, some CsvConfig.default⟩)
        [[123, 34, 97], [34, 58, 49, 125]]).1 =
      Except.error (ConvertError.jsonParse ("invalid JSON document")) := by
  refine ⟨by decide, ?_, ?_⟩ <;> rfl

/-- Newline counting is additive over concatenation. -/
theorem countNl_append (a b : Bytes) : countNl (a ++ b) = countNl a + countNl b := by
  simp [countNl, List.filter_append]

/-- Chunk accounting does not touch the record counter. -/
@[simp] theorem records_recordChunk (s : Stats) (n : Nat) :
    (s.recordChunk n).recordsProcessed = s.recordsProcessed := rfl

/-- Output accounting does not touch the record counter. -/
@[simp] theorem records_recordOutput (s : Stats) (n : Nat) :
    (s.recordOutput n).recordsProcessed = s.recordsProcessed := rfl

/-- Parse-time accounting does not touch the record counter. -/
@[simp] theorem records_recordParseTime (s : Stats) :
    (s.recordParseTime).recordsProcessed = s.recordsProcessed := rfl

/-- Buffer-size accounting does not touch the record counter. -/
@[simp] theorem records_updateBufferSize (s : Stats) (n : Nat) :
    (s.updateBufferSize n).recordsProcessed = s.recordsProcessed := rfl

/-- Record accounting adds the given count. -/
@[simp] theorem records_recordRecords (s : Stats) (n : Nat) :
    (s.recordRecords n).recordsProcessed = s.recordsProcessed + n := rfl

/-- Shape of one push on the NDJSON passthrough pipeline: parser errors
propagate; on success the output is the parser output, the state stays in the
pipeline with the advanced parser, and the record counter grows by the
newline count of the pushed chunk. -/
theorem push_ndjsonPassthrough_shape (c : Converter) (p : NdjsonParser) (ch : Bytes)
    (hst : c.state = some (ConverterState.ndjsonPassthrough p)) :
    (∀ e, p.push ch = Except.error e → (c.push ch).1 = Except.error e) ∧
    (∀ o p', p.push ch = Except.ok (o, p') →
      (c.push ch).1 = Except.ok o ∧
      (c.push ch).2.state = some (ConverterState.ndjsonPassthrough p') ∧
      (c.push ch).2.stats.recordsProcessed = c.stats.recordsProcessed + countNl ch) := by
  constructor
  · intro e he
    by_cases hen : c.config.enableStats <;>
      simp [Converter.push, Converter.pushTail, Converter.pushInternal, hst, hen, he]
  · intro o p' ho
    by_cases hen : c.config.enableStats <;>
      simp [Converter.push, Converter.pushTail, Converter.pushInternal, hst, hen, ho,
        partialSizeOf]

/-- In the NDJSON passthrough pipeline, a successful run adds exactly the
number of newline bytes of the pushed chunks to the record counter
(`finish` adds nothing, even for a final unterminated record line). -/
theorem runConv_ndjsonPassthrough_records (chunks : List Bytes) :
    ∀ (c : Converter) (p : NdjsonParser) (out : Bytes) (c' : Converter),
      c.state = some (ConverterState.ndjsonPassthrough p) →
      runConv c chunks = (Except.ok out, c') →
      c'.stats.recordsProcessed = c.stats.recordsProcessed + countNl chunks.flatten := by
  induction chunks with
  | nil =>
    intro c p out c' hst hrun
    simp only [runConv, Converter.finish, hst, Converter.finishCore] at hrun
    rcases hf : p.finish with e | ⟨o, p2⟩
    · rw [hf] at hrun
      simp at hrun
    · rw [hf] at hrun
      by_cases hen : c.config.enableStats
      · simp only [hen, if_pos, Prod.mk.injEq] at hrun
        obtain ⟨_, hc⟩ := hrun
        subst hc
        simp [countNl]
      · simp only [hen, Bool.false_eq_true, if_neg, Prod.mk.injEq] at hrun
        obtain ⟨_, hc⟩ := hrun
        subst hc
        simp [countNl]
  | cons ch rest ih =>
    intro c p out c' hst hrun
    simp only [runConv] at hrun
    rcases hp : p.push ch with e | ⟨o, p'⟩
    · have h1 := (push_ndjsonPassthrough_shape c p ch hst).1 e hp
      rw [h1] at hrun
      simp at hrun
    · obtain ⟨h1, h2, h3⟩ := (push_ndjsonPassthrough_shape c p ch hst).2 o p' hp
      rw [h1] at hrun
      simp only at hrun
      rcases hr : runConv (c.push ch).2 rest with ⟨r2, c2⟩
      rw [hr] at hrun
      rcases r2 with e | o2
      · simp at hrun
      · simp only [Prod.mk.injEq] at hrun
        obtain ⟨_, hc⟩ := hrun
        subst hc
        have := ih (c.push ch).2 p' o2 c2 h2 hr
        rw [this, h3, List.flatten_cons, countNl_append]
        omega

/-- C2 (amended): for the NDJSON passthrough pipeline, after a successful
run the counter `records_processed` equals the number of newline bytes in the
pushed input — not the number of records: blank lines are counted and a final
record line without a trailing newline is not, and `finish` never adjusts the
counter (the code comment calls this counting newlines as records). -/
theorem c2_theorem (cfg : ConverterConfig) (chunks : List Bytes) (out : Bytes) (c' : Converter)
    (hin : cfg.inputFormat = Format.ndjson) (hout : cfg.outputFormat = Format.ndjson)
    (hrun : runConv (Converter.mk0 cfg) chunks = (Except.ok out, c')) :
    c'.stats.recordsProcessed = countNl chunks.flatten := by
  have hst : (Converter.mk0 cfg).state =
      some (ConverterState.ndjsonPassthrough (NdjsonParser.new cfg.chunkTargetBytes)) := by
    simp [Converter.mk0, createState, hin, hout]
  have := runConv_ndjsonPassthrough_records chunks (Converter.mk0 cfg)
    (NdjsonParser.new cfg.chunkTargetBytes) out c' hst hrun
  simpa [Converter.mk0, Stats.default] using this

/-- Witness for C2: a run over two chunks whose bytes hold three newlines
(one of them a blank line) leaves the record counter at the newline count. -/
theorem c2_witness :
    (runConv
        (Converter.mk0 ⟨Format.ndjson, Format.ndjson, 1024, true, some CsvConfig.default⟩)
        [[123, 125, 10, 10], [123, 125, 10]]).2.stats.recordsProcessed =
      countNl ([[123, 125, 10, 10], [123, 125, 10]] : List Bytes).flatten :=
  c2_theorem ⟨Format.ndjson, Format.ndjson, 1024, true, some CsvConfig.default⟩
    [[123, 125, 10, 10], [123, 125, 10]]
    [123, 125, 10, 123, 125, 10]
    (runConv
      (Converter.mk0 ⟨Format.ndjson, Format.ndjson, 1024, true, some CsvConfig.default⟩)
      [[123, 125, 10, 10], [123, 125, 10]]).2
    rfl rfl (by rfl)

/-- Counterexample for C2 as stated: for the NDJSON passthrough pipeline with
stats enabled, pushing one record line without a trailing newline and
finishing emits the record but leaves `records_processed` at 0, while the
input contains one NDJSON record. -/
theorem c2_counterexample :
    (runConv (Converter.mk0 ⟨Format.ndjson, Format.ndjson, 1024, true, some CsvConfig.default⟩)
        [[123, 34, 97, 34, 58, 49, 125]]).1 =
      Except.ok [123, 34, 97, 34, 58, 49, 125, 10] ∧
    (runConv (Converter.mk0 ⟨Format.ndjson, Format.ndjson, 1024, true, some CsvConfig.default⟩)
        [[123, 34, 97, 34, 58, 49, 125]]).2.stats.recordsProcessed = 0 ∧
    specNdjsonRecordCount [123, 34, 97, 34, 58, 49, 125] = 1 := by
  refine ⟨rfl, rfl, by decide⟩

/-- Normal form of the item-emission loop of `to_json_array`: emitted bytes
are the kept lines joined by the running-counter comma rule, and the counter
advances by the number of kept lines. -/
theorem emitItems_spec (ls : List Bytes) : ∀ t,
    emitItems t ls = (emitKept t (ls.filter lineKept), t + (ls.filter lineKept).length) := by
  induction ls with
  | nil => intro t; simp [emitItems, emitKept, List.filter_nil]
  | cons l ls ih =>
    intro t
    by_cases hk : lineKept l
    · simp only [emitItems, hk, if_pos, ih (t + 1), List.filter_cons, emitKept]
      simp [List.length_cons]
      omega
    · simp only [emitItems, hk, List.filter_cons]
      simp only [hk, Bool.false_eq_true, if_neg, ih t]
      simp

/-- Comma-joined emission splits over concatenation with the counter advanced
by the length of the first part. -/
theorem emitKept_append (a : List Bytes) : ∀ (t : Nat) (b : List Bytes),
    emitKept t (a ++ b) = emitKept t a ++ emitKept (t + a.length) b := by
  induction a with
  | nil => intro t b; simp [emitKept]
  | cons l ls ih =>
    intro t b
    have h : t + 1 + ls.length = t + (ls.length + 1) := by omega
    simp only [List.cons_append, emitKept, List.length_cons, List.append_eq,
      ih (t + 1) b, h, List.append_assoc]

/-- The wrapper records of a concatenation: the kept complete lines of the
first part, then the records of the carried partial prepended to the rest. -/
theorem arrayRecords_append (x y : Bytes) :
    arrayRecords (x ++ y) =
      (splitNl x).1.filter lineKept ++ arrayRecords ((splitNl x).2 ++ y) := by
  unfold arrayRecords
  rw [splitNl_append x y]
  simp [List.filter_append]

/-- One non-final `to_json_array` step in normal form. -/
theorem toJsonArray_push (p : NdjsonParser) (ch : Bytes) (isFirst : Bool) :
    p.toJsonArray ch isFirst false =
      ((if isFirst then [91] else []) ++
        emitKept p.itemsWritten ((splitNl (p.partialLine ++ ch)).1.filter lineKept),
       { p with
          partialLine := (splitNl (p.partialLine ++ ch)).2,
          itemsWritten :=
            p.itemsWritten + ((splitNl (p.partialLine ++ ch)).1.filter lineKept).length }) := by
  unfold NdjsonParser.toJsonArray
  simp only [emitItems_spec]
  simp

/-- The closing `to_json_array` step in normal form: the final kept partial
line (if any) and the closing bracket, with the partial line consumed. -/
theorem toJsonArray_last (p : NdjsonParser) (hnl : ¬ (10 ∈ p.partialLine)) :
    p.toJsonArray [] false true =
      (emitKept p.itemsWritten (if lineKept p.partialLine then [p.partialLine] else []) ++ [93],
       { p with
          partialLine := [],
          itemsWritten :=
            p.itemsWritten + (if lineKept p.partialLine then 1 else 0) }) := by
  unfold NdjsonParser.toJsonArray
  simp only [emitItems_spec, List.append_nil, splitNl_of_no_nl p.partialLine hnl,
    List.filter_nil, List.length_nil, Nat.add_zero, emitKept]
  by_cases he : p.partialLine.isEmpty
  · have : p.partialLine = [] := by
      cases hp : p.partialLine
      · rfl
      · rw [hp] at he; simp at he
    simp [this, lineKept, emitKept]
  · by_cases hw : p.partialLine.all isRustWs
    · have hk : lineKept p.partialLine = false := by simp [lineKept, hw]
      simp [he, hw, hk, emitKept]
    · have hk : lineKept p.partialLine = true := by simp [lineKept, he, hw]
      simp [he, hw, hk, emitKept]

/-- Push through the NDJSON-to-JSON pipeline: the arm never fails, emits the
non-final `to_json_array` output, and reinstalls the state with the updated
wrapper and the first-flag cleared. -/
theorem push_ndjsonToJson_shape (c : Converter) (p p' : NdjsonParser) (f : Bool)
    (ch out : Bytes)
    (hst : c.state = some (ConverterState.ndjsonToJson p f))
    (hA : p.toJsonArray ch f false = (out, p')) :
    (c.push ch).1 = Except.ok out ∧
    (c.push ch).2.state = some (ConverterState.ndjsonToJson p' false) := by
  refine ⟨?_, ?_⟩ <;> by_cases hen : c.config.enableStats <;>
    simp [Converter.push, Converter.pushTail, Converter.pushInternal, hst, hen, hA,
      partialSizeOf]

/-- Finish of the NDJSON-to-JSON pipeline with an empty output buffer: the
closing `to_json_array` call (with `is_first` hard-coded to false) emits the
kept final partial line and the closing bracket, and nothing else. -/
theorem finish_ndjsonToJson_shape (c : Converter) (p : NdjsonParser) (f : Bool)
    (hst : c.state = some (ConverterState.ndjsonToJson p f))
    (hob : p.outputBuffer = []) (hnl : ¬ (10 ∈ p.partialLine)) :
    c.finish.1 = Except.ok
      (emitKept p.itemsWritten (if lineKept p.partialLine then [p.partialLine] else []) ++ [93]) := by
  have hA := toJsonArray_last p hnl
  by_cases hen : c.config.enableStats <;>
    simp [Converter.finish, Converter.finishCore, hst, hA, NdjsonParser.finish, hob, hen]

/-- Running the NDJSON-to-JSON pipeline from a post-first-push state produces
exactly the comma-joined records of the carried partial line plus the
remaining bytes, closed with a bracket. -/
theorem runConv_ndjsonToJson_out (rest : List Bytes) :
    ∀ (c : Converter) (p : NdjsonParser),
      c.state = some (ConverterState.ndjsonToJson p false) →
      p.outputBuffer = [] → ¬ (10 ∈ p.partialLine) →
      (runConv c rest).1 =
        Except.ok (emitKept p.itemsWritten (arrayRecords (p.partialLine ++ rest.flatten)) ++ [93]) := by
  induction rest with
  | nil =>
    intro c p hst hob hnl
    simp only [runConv]
    rw [finish_ndjsonToJson_shape c p false hst hob hnl]
    rw [List.flatten_nil, List.append_nil]
    unfold arrayRecords
    rw [splitNl_of_no_nl p.partialLine hnl]
    simp
  | cons ch rest ih =>
    intro c p hst hob hnl
    have hA := toJsonArray_push p ch false
    simp only [Bool.false_eq_true, if_neg, List.nil_append] at hA
    obtain ⟨h1, h2⟩ := push_ndjsonToJson_shape c p _ false ch _ hst hA
    have hob2 : ({ p with
        partialLine := (splitNl (p.partialLine ++ ch)).2,
        itemsWritten :=
          p.itemsWritten + ((splitNl (p.partialLine ++ ch)).1.filter lineKept).length } :
        NdjsonParser).outputBuffer = [] := hob
    have hnl2 : ¬ (10 ∈ ({ p with
        partialLine := (splitNl (p.partialLine ++ ch)).2,
        itemsWritten :=
          p.itemsWritten + ((splitNl (p.partialLine ++ ch)).1.filter lineKept).length } :
        NdjsonParser).partialLine) := splitNl_partial_no_nl _
    have hrest := ih (c.push ch).2 _ h2 hob2 hnl2
    simp only [runConv]
    rw [h1]
    simp only []
    rw [hrest]
    simp only []
    have hsplit : p.partialLine ++ (ch ++ rest.flatten) = (p.partialLine ++ ch) ++ rest.flatten :=
      (List.append_assoc p.partialLine ch rest.flatten).symm
    rw [List.flatten_cons, hsplit, arrayRecords_append (p.partialLine ++ ch) rest.flatten,
      emitKept_append]
    simp [List.append_assoc]

/-- C3 (amended): for the NDJSON-to-JSON pipeline driven with at least one
`push`, the complete output is exactly one opening bracket, the kept record
lines joined with a comma before every record but the first, and one closing
bracket — so it starts with the bracket 91, ends with the bracket 93, and
holds n-1 separating commas for n emitted records.  The original claim fails
with zero pushes: `finish` alone calls `to_json_array` with `is_first` false
and emits only the closing bracket (see the counterexample). -/
theorem c3_theorem (cfg : ConverterConfig) (chunks : List Bytes)
    (hin : cfg.inputFormat = Format.ndjson) (hout : cfg.outputFormat = Format.json)
    (hne : chunks ≠ []) :
    (runConv (Converter.mk0 cfg) chunks).1 =
      Except.ok (91 :: (emitKept 0 (arrayRecords chunks.flatten) ++ [93])) ∧
    (91 :: (emitKept 0 (arrayRecords chunks.flatten) ++ [93])).head? = some 91 ∧
    (91 :: (emitKept 0 (arrayRecords chunks.flatten) ++ [93])).getLast? = some 93 := by
  refine ⟨?_, rfl, ?_⟩
  · cases chunks with
    | nil => exact absurd rfl hne
    | cons ch rest =>
      have hst : (Converter.mk0 cfg).state =
          some (ConverterState.ndjsonToJson (NdjsonParser.new cfg.chunkTargetBytes) true) := by
        simp [Converter.mk0, createState, hin, hout]
      have hA := toJsonArray_push (NdjsonParser.new cfg.chunkTargetBytes) ch true
      simp only [NdjsonParser.new, List.nil_append, if_pos, Nat.zero_add] at hA
      obtain ⟨h1, h2⟩ :=
        push_ndjsonToJson_shape (Converter.mk0 cfg) (NdjsonParser.new cfg.chunkTargetBytes)
          _ true ch _ hst hA
      have hrest := runConv_ndjsonToJson_out rest ((Converter.mk0 cfg).push ch).2 _ h2 rfl
        (splitNl_partial_no_nl _)
      simp only [runConv]
      rw [h1]
      simp only []
      rw [hrest]
      simp only []
      rw [List.flatten_cons, arrayRecords_append ch rest.flatten, emitKept_append]
      simp [List.append_assoc]
  · rw [← List.cons_append]
    exact List.getLast?_concat _

/-- Witness for C3 (amended): two record lines across two chunks produce
exactly one opening bracket, one separating comma and one closing bracket. -/
theorem c3_witness :
    (runConv (Converter.mk0 ⟨Format.ndjson, Format.json, 1024, true, some CsvConfig.default⟩)
        [[123, 125, 10], [123, 125]]).1 =
      Except.ok [91, 123, 125, 44, 123, 125, 93] :=
  ((c3_theorem ⟨Format.ndjson, Format.json, 1024, true, some CsvConfig.default⟩
      [[123, 125, 10], [123, 125]] rfl rfl (by decide)).1).trans (by rfl)

/-- Counterexample for C3 as stated: an NDJSON-to-JSON converter that is
finished without any push emits only the closing bracket — the complete
output is the single byte 93, which does not start with the opening
bracket 91. -/
theorem c3_counterexample :
    (runConv (Converter.mk0 ⟨Format.ndjson, Format.json, 1024, true, some CsvConfig.default⟩)
        []).1 = Except.ok [93] ∧
    ([93] : Bytes).head? ≠ some 91 := by
  exact ⟨rfl, by decide⟩

/-- Appending a newline to a newline-free segment yields exactly that one
complete line and an empty partial. -/
theorem splitNl_concat_nl (l : Bytes) (h : ¬ (10 ∈ l)) : splitNl (l ++ [10]) = ([l], []) := by
  induction l with
  | nil => simp [splitNl]
  | cons b rest ih =>
    have hb : ¬ (b = 10) := by intro hh; exact h (by simp [hh])
    have hr : ¬ (10 ∈ rest) := by intro hh; exact h (by simp [hh])
    simp [List.cons_append, splitNl, hb, ih hr]

/-- C4 (amended): `process_line` skips — without error — precisely the lines
rejected by the quick first-byte check; a line that passes the quick check is
fully parsed, copied verbatim plus a newline when valid, and turned into a
`JsonParse` error when invalid; such an error aborts `push`.  The original
claim fails on lines that pass the quick check but are not valid JSON (see
the counterexample). -/
theorem c4_theorem (line : Bytes) :
    (quickValidate line = false → NdjsonParser.processLine line = Except.ok []) ∧
    ((jsonParse line).isSome = true → quickValidate line = true →
      NdjsonParser.processLine line = Except.ok (line ++ [10])) ∧
    (jsonParse line = none → quickValidate line = true →
      NdjsonParser.processLine line =
        Except.error (ConvertError.jsonParse ("invalid JSON document"))) ∧
    (∀ (p : NdjsonParser) (e : ConvertError), p.partialLine = [] → ¬ (10 ∈ line) →
      lineKept line = true → NdjsonParser.processLine line = Except.error e →
      p.push (line ++ [10]) = Except.error e) := by
  refine ⟨?_, ?_, ?_, ?_⟩
  · intro hq
    simp [NdjsonParser.processLine, hq]
  · intro hs hq
    rcases hv : jsonParse line with _ | v
    · rw [hv] at hs; simp at hs
    · simp [NdjsonParser.processLine, hq, hv]
  · intro hn hq
    simp [NdjsonParser.processLine, hq, hn]
  · intro p e hpl hnl hk herr
    simp [NdjsonParser.push, hpl, splitNl_concat_nl line hnl, processLinesM, hk, herr]

/-- Witness for C4 (amended): a quick-check-rejected line is skipped without
error, a valid line is copied verbatim plus a newline, a quick-check-passing
invalid line is an error, and that error aborts `push`. -/
theorem c4_witness :
    NdjsonParser.processLine [111, 111, 112, 115] = Except.ok [] ∧
    NdjsonParser.processLine [123, 125] = Except.ok [123, 125, 10] ∧
    NdjsonParser.processLine [123, 120] =
      Except.error (ConvertError.jsonParse ("invalid JSON document")) ∧
    (NdjsonParser.new 1024).push [123, 120, 10] =
      Except.error (ConvertError.jsonParse ("invalid JSON document")) :=
  ⟨(c4_theorem [111, 111, 112, 115]).1 (by decide),
   (c4_theorem [123, 125]).2.1 (by rfl) (by decide),
   (c4_theorem [123, 120]).2.2.1 (by rfl) (by decide),
   (c4_theorem [123, 120]).2.2.2 (NdjsonParser.new 1024) _ rfl (by decide) (by decide) (by rfl)⟩

/-- Counterexample for C4 as stated: the two-byte line left-brace x passes
the quick validation (it starts with the left brace) but is not valid JSON,
so `push` on that line aborts with a `JsonParse` error rather than skipping
it. -/
theorem c4_counterexample :
    quickValidate [123, 120] = true ∧
    (NdjsonParser.new 1024).push [123, 120, 10] =
      Except.error (ConvertError.jsonParse ("invalid JSON document")) :=
  ⟨by decide, by rfl⟩

/-- `create_state` always installs an active pipeline state, never the
detection pre-state. -/
theorem createState_ne_needsDetection (config : ConverterConfig) (buf : Bytes) :
    createState config ≠ ConverterState.needsDetection buf := by
  unfold createState
  cases config.inputFormat <;> cases config.outputFormat <;> simp

/-- An erroring `push_internal` never reinstalls the state slot (outside the
detection pre-state): the returned converter is finished. -/
theorem pushInternal_ok_or_finished (c : Converter) (ch : Bytes)
    (hnd : ∀ buf, c.state ≠ some (ConverterState.needsDetection buf)) :
    (∃ o, (c.pushInternal ch).1 = Except.ok o) ∨ (c.pushInternal ch).2.state = none := by
  unfold Converter.pushInternal
  rcases hst : c.state with _ | st
  · right; simp [hst]
  · have hx := hnd
    cases st <;> simp only [hst] <;> (repeat' split) <;> simp_all

/-- An erroring `push` tail leaves the state slot empty. -/
theorem pushTail_error_state_none (c : Converter) (ch : Bytes) (e : ConvertError)
    (hnd : ∀ buf, c.state ≠ some (ConverterState.needsDetection buf))
    (herr : (c.pushTail ch).1 = Except.error e) : (c.pushTail ch).2.state = none := by
  unfold Converter.pushTail at herr ⊢
  rcases hP : c.pushInternal ch with ⟨r, c2⟩
  rw [hP] at herr
  rcases r with e2 | o
  · have hd := pushInternal_ok_or_finished c ch hnd
    rw [hP] at hd
    rcases hd with ⟨o, ho⟩ | hn
    · simp at ho
    · simpa using hn
  · by_cases hen : c2.config.enableStats <;> simp [hen] at herr

/-- An erroring `push` (outside the detection pre-state) leaves the state
slot empty: the converter is finished. -/
theorem push_error_state_none (c : Converter) (ch : Bytes) (e : ConvertError)
    (hnd : ∀ buf, c.state ≠ some (ConverterState.needsDetection buf))
    (herr : (c.push ch).1 = Except.error e) : (c.push ch).2.state = none := by
  unfold Converter.push at herr ⊢
  rcases hst : c.state with _ | st
  · by_cases hen : c.config.enableStats <;> simp only [hen, hst, if_true, if_false,
      Bool.false_eq_true, if_neg, if_pos, not_false_eq_true] at herr ⊢ <;>
      exact pushTail_error_state_none _ ch e (fun buf h => hnd buf (by simpa using h)) herr
  · cases st <;>
      first
      | exact absurd hst (hnd _)
      | (by_cases hen : c.config.enableStats <;> simp only [hen, hst, if_true, if_false,
          Bool.false_eq_true, if_neg, if_pos, not_false_eq_true] at herr ⊢ <;>
          exact pushTail_error_state_none _ ch e (fun buf h => by simp [hst] at h) herr)

/-- The state-slot match of `finish` never reinstalls the slot: afterwards the
converter is finished, whatever the outcome. -/
theorem finishCore_state_none (c : Converter) : ((c.finishCore).2).state = none := by
  unfold Converter.finishCore
  rcases hst : c.state with _ | st
  · simp [hst]
  · cases st <;> simp only [hst] <;> (repeat' split) <;> simp_all <;>
      (rename_i heq2 hx
       repeat' split at heq2) <;> simp_all <;>
      (obtain ⟨h3, h4⟩ := heq2
       rw [← h4])

/-- `finish` never reinstalls the state slot, including through the
detection-replay branch. -/
theorem finish_state_none (c : Converter) : ((c.finish).2).state = none := by
  unfold Converter.finish
  rcases hst : c.state with _ | st
  · simpa [hst] using finishCore_state_none c
  · cases st with
    | needsDetection buf =>
      simp only [hst]
      by_cases hb : buf.isEmpty
      · simpa [hb] using finishCore_state_none c
      · simp only [hb, Bool.not_false, if_true, if_pos]
        rcases hp : (c.autoDetectInit buf).push buf with ⟨r1, c2⟩
        rcases r1 with e1 | o1
        · simp only []
          have hnd : ∀ b2, (c.autoDetectInit buf).state ≠
              some (ConverterState.needsDetection b2) := by
            intro b2 h
            simp only [Converter.autoDetectInit] at h
            exact createState_ne_needsDetection _ b2 (by simpa using h)
          have := push_error_state_none (c.autoDetectInit buf) buf e1 hnd (by rw [hp])
          rw [hp] at this
          simpa using this
        · simp only []
          rcases hf : c2.finishCore with ⟨r2, c3⟩
          have := finishCore_state_none c2
          rw [hf] at this
          rcases r2 with e2 | o2 <;> simpa [hf] using this
    | csvPassthrough p w => simpa [hst] using finishCore_state_none c
    | csvToNdjson p => simpa [hst] using finishCore_state_none c
    | csvToJson p np f => simpa [hst] using finishCore_state_none c
    | ndjsonPassthrough p => simpa [hst] using finishCore_state_none c
    | ndjsonToJson p f => simpa [hst] using finishCore_state_none c
    | ndjsonToCsv p w => simpa [hst] using finishCore_state_none c
    | jsonPassthrough p => simpa [hst] using finishCore_state_none c
    | jsonToNdjson p => simpa [hst] using finishCore_state_none c
    | jsonToCsv p w => simpa [hst] using finishCore_state_none c

/-- C5: once `finish` has returned — whatever its outcome — the state slot is
empty, so every later `push` and every later `finish` on that converter fails
with the `InvalidConfig` error carrying the message Converter already
finished; a second `finish` is an error, never a silent no-op. -/
theorem c5_theorem (c : Converter) (r : Except ConvertError Bytes) (c' : Converter)
    (ch : Bytes) (hf : c.finish = (r, c')) :
    (c'.push ch).1 =
      Except.error (ConvertError.invalidConfig ("Converter already finished")) ∧
    (c'.finish).1 =
      Except.error (ConvertError.invalidConfig ("Converter already finished")) := by
  have hn : c'.state = none := by
    have h := finish_state_none c
    rw [hf] at h
    exact h
  constructor
  · by_cases hen : c'.config.enableStats <;>
      simp [Converter.push, Converter.pushTail, Converter.pushInternal, hn, hen]
  · simp [Converter.finish, Converter.finishCore, hn]

/-- Witness for C5: after finishing a fresh NDJSON passthrough converter, a
push of one byte and a second finish both fail with the already-finished
error. -/
theorem c5_witness :
    ((((Converter.mk0 ⟨Format.ndjson, Format.ndjson, 1024, false, none⟩).finish).2).push
        [123]).1 =
      Except.error (ConvertError.invalidConfig ("Converter already finished")) ∧
    ((((Converter.mk0 ⟨Format.ndjson, Format.ndjson, 1024, false, none⟩).finish).2).finish).1 =
      Except.error (ConvertError.invalidConfig ("Converter already finished")) :=
  c5_theorem (Converter.mk0 ⟨Format.ndjson, Format.ndjson, 1024, false, none⟩)
    ((Converter.mk0 ⟨Format.ndjson, Format.ndjson, 1024, false, none⟩).finish).1
    ((Converter.mk0 ⟨Format.ndjson, Format.ndjson, 1024, false, none⟩).finish).2
    [123] rfl

/-- C7: in the `NeedsDetection` state, a push that keeps the accumulated
buffer under 256 bytes (with a nonempty chunk) emits nothing and buffers the
chunk after the previous bytes; otherwise the detection-and-replay path runs
the push tail on the entire buffered prefix through the freshly created
pipeline state, exactly once; `finish` with a nonempty buffer likewise pushes
the whole buffered prefix through the freshly created state and then flushes
it.  No buffered byte is dropped or pushed twice. -/
theorem c7_theorem (c : Converter) (buf ch : Bytes)
    (hst : c.state = some (ConverterState.needsDetection buf)) :
    ((buf ++ ch).length < 256 → ch ≠ [] →
      (c.push ch).1 = Except.ok [] ∧
      (c.push ch).2.state = some (ConverterState.needsDetection (buf ++ ch))) ∧
    (¬ ((buf ++ ch).length < 256 ∧ ch ≠ []) →
      ∃ c1 : Converter,
        c1.state = some (createState c1.config) ∧
        c.push ch = c1.pushTail (buf ++ ch)) ∧
    (buf ≠ [] →
      ∃ c1 : Converter,
        c1.state = some (createState c1.config) ∧
        c.finish =
          (match c1.push buf with
           | (Except.error e, c2) => (Except.error e, c2)
           | (Except.ok o1, c2) =>
             match c2.finishCore with
             | (Except.error e, c3) => (Except.error e, c3)
             | (Except.ok o2, c3) => (Except.ok (o1 ++ o2), c3))) := by
  refine ⟨?_, ?_, ?_⟩
  · intro hlen hne
    have hne2 : ch.isEmpty = false := by
      cases ch
      · exact absurd rfl hne
      · rfl
    have hlen2 : buf.length + ch.length < 256 := by simpa using hlen
    constructor <;> by_cases hen : c.config.enableStats <;>
      simp [Converter.push, hst, hen, hlen2, hne2]
  · intro hcond
    refine ⟨(fun cS =>
        (fun cA => if cA.config.enableStats = true then
            { cA with stats := cA.stats.recordChunk (buf ++ ch).length } else cA)
          (Converter.autoDetectInit { cS with state := none } (buf ++ ch)))
        (if c.config.enableStats = true then
          { c with stats := c.stats.recordChunk ch.length } else c), ?_, ?_⟩
    · by_cases hen : c.config.enableStats <;>
        simp only [hen, if_true, if_false, Bool.false_eq_true, if_neg, if_pos,
          not_false_eq_true] <;> split <;> rfl
    · by_cases hen : c.config.enableStats <;>
        simp [Converter.push, hst, hen, hcond] <;>
        (intro h1 h2
         exact absurd ⟨by simpa using h1, h2⟩ hcond)
  · intro hbuf
    have hbuf2 : buf.isEmpty = false := by
      cases buf
      · exact absurd rfl hbuf
      · rfl
    refine ⟨c.autoDetectInit buf, rfl, ?_⟩
    simp [Converter.finish, hst, hbuf2]

/-- Witness for C7: one byte buffered, one byte pushed — the push emits
nothing and the buffer holds both bytes in order. -/
theorem c7_witness :
    ((⟨false, ⟨Format.ndjson, Format.ndjson, 1024, false, none⟩,
        some (ConverterState.needsDetection [97]), Stats.default⟩ : Converter).push [98]).1 =
      Except.ok [] ∧
    ((⟨false, ⟨Format.ndjson, Format.ndjson, 1024, false, none⟩,
        some (ConverterState.needsDetection [97]), Stats.default⟩ : Converter).push
        [98]).2.state = some (ConverterState.needsDetection ([97] ++ [98])) :=
  (c7_theorem
    ⟨false, ⟨Format.ndjson, Format.ndjson, 1024, false, none⟩,
      some (ConverterState.needsDetection [97]), Stats.default⟩
    [97] [98] rfl).1 (by decide) (by decide)

/-- Once the header flag is set, an object line writes exactly one data row
under the frozen headers and leaves the writer unchanged. -/
theorem processJsonLine_frozen (hdr : List Bytes) (l : Bytes) (r : List (Bytes × Json))
    (hp : jsonParse l = some (Json.obj r)) :
    CsvWriter.processJsonLine ⟨hdr, true⟩ l =
      (writeCsvRow (rowValues hdr (flattenObj [] r [])), ⟨hdr, true⟩) := by
  simp [CsvWriter.processJsonLine, hp]

/-- Driving a frozen-header writer over object lines emits one data row per
record and never touches the headers. -/
theorem csvWriterRun_frozen (lines : List Bytes) (records : List (List (Bytes × Json)))
    (hdr : List Bytes)
    (hpar : List.Forall₂ (fun l r => jsonParse l = some (Json.obj r)) lines records) :
    csvWriterRun ⟨hdr, true⟩ lines =
      ((records.map (fun r => writeCsvRow (rowValues hdr (flattenObj [] r [])))).flatten,
       ⟨hdr, true⟩) := by
  induction hpar with
  | nil => rfl
  | cons h hrest ih =>
    rename_i l r ls rs
    simp only [csvWriterRun, processJsonLine_frozen hdr l r h, ih, List.map_cons,
      List.flatten_cons]

/-- C6: feeding NDJSON object lines to the CSV writer emits the header row
exactly once, on the first record — the first record's flattened keys sorted
lexicographically — and that header is frozen: every later record contributes
one row under it, with an empty cell for each missing column and its
out-of-header keys dropped. -/
theorem c6_theorem (lines : List Bytes) (records : List (List (Bytes × Json)))
    (hpar : List.Forall₂ (fun l r => jsonParse l = some (Json.obj r)) lines records) :
    (csvWriterRun CsvWriter.new lines).1 = csvWriterSpecOutput records := by
  cases hpar with
  | nil => rfl
  | cons h hrest =>
    rename_i l r ls rs
    have hfirst : CsvWriter.processJsonLine CsvWriter.new l =
        (writeCsvRow (insSort bytesLe ((flattenObj [] r []).map Prod.fst).dedup) ++
          writeCsvRow (rowValues (insSort bytesLe ((flattenObj [] r []).map Prod.fst).dedup)
            (flattenObj [] r [])),
         ⟨insSort bytesLe ((flattenObj [] r []).map Prod.fst).dedup, true⟩) := by
      simp [CsvWriter.processJsonLine, CsvWriter.new, h, sortedUnionKeys]
    simp only [csvWriterRun, hfirst,
      csvWriterRun_frozen ls rs _ hrest, csvWriterSpecOutput, List.append_assoc]

/-- Witness for C6: two object records — the second lacks column a and has an
extra key c — produce one header row from the first record's sorted keys, a
full first row, and a second row with an empty first cell and the extra key
dropped. -/
theorem c6_witness :
    (csvWriterRun CsvWriter.new
        [[123, 34, 98, 34, 58, 49, 44, 34, 97, 34, 58, 50, 125],
         [123, 34, 98, 34, 58, 51, 44, 34, 99, 34, 58, 52, 125]]).1 =
      csvWriterSpecOutput
        [(match jsonParse [123, 34, 98, 34, 58, 49, 44, 34, 97, 34, 58, 50, 125] with
          | some (Json.obj es) => es
          | _ => []),
         (match jsonParse [123, 34, 98, 34, 58, 51, 44, 34, 99, 34, 58, 52, 125] with
          | some (Json.obj es) => es
          | _ => [])] :=
  c6_theorem
    [[123, 34, 98, 34, 58, 49, 44, 34, 97, 34, 58, 50, 125],
     [123, 34, 98, 34, 58, 51, 44, 34, 99, 34, 58, 52, 125]]
    [(match jsonParse [123, 34, 98, 34, 58, 49, 44, 34, 97, 34, 58, 50, 125] with
      | some (Json.obj es) => es
      | _ => []),
     (match jsonParse [123, 34, 98, 34, 58, 51, 44, 34, 99, 34, 58, 52, 125] with
      | some (Json.obj es) => es
      | _ => [])]
    (by refine List.Forall₂.cons ?_ (List.Forall₂.cons ?_ List.Forall₂.nil) <;> rfl)

/-- C10: a line that does not parse as JSON, or whose top-level value is not
an object, makes `process_json_line` return successfully with empty output:
no header row, no data row, no error, and the writer (its frozen header
included) is unchanged. -/
theorem c10_theorem (w : CsvWriter) (line : Bytes)
    (h : ∀ es, jsonParse line ≠ some (Json.obj es)) :
    w.processJsonLine line = ([], w) := by
  unfold CsvWriter.processJsonLine
  rcases hv : jsonParse line with _ | v
  · rfl
  · cases v <;> first | rfl | exact absurd hv (h _)

/-- Witness for C10: an unparseable line and an array-valued line both leave
a frozen-header writer untouched and emit nothing. -/
theorem c10_witness :
    CsvWriter.processJsonLine ⟨[[97]], true⟩ [111, 111, 112, 115] = ([], ⟨[[97]], true⟩) ∧
    CsvWriter.processJsonLine ⟨[[97]], true⟩ [91, 116, 114, 117, 101, 93] =
      ([], ⟨[[97]], true⟩) :=
  ⟨c10_theorem ⟨[[97]], true⟩ [111, 111, 112, 115]
      (fun es h => by
        rw [show jsonParse [111, 111, 112, 115] = none from rfl] at h
        cases h),
   c10_theorem ⟨[[97]], true⟩ [91, 116, 114, 117, 101, 93]
      (fun es h => by
        rw [show jsonParse [91, 116, 114, 117, 101, 93] =
          some (Json.arr [Json.bool true]) from rfl] at h
        simp at h)⟩

/-- C9: binary compute expressions coerce both operands through `to_f64` —
numbers give their value, strings go through the f64 string parse, booleans
read as 0/1, and null, arrays and objects are not coercible — erroring with
the invalid-config message exactly when an operand fails the coercion, and
otherwise producing the operator applied on the f64 model, where division by
a nonzero finite value is the floating-point quotient. -/
theorem c9_theorem (op : BinaryOp) (l r : Expr) (record : TRecord) (lv rv : Json)
    (hl : Expr.evaluate l record = Except.ok lv)
    (hr : Expr.evaluate r record = Except.ok rv) :
    (toF64 lv = none ∨ toF64 rv = none →
      Expr.evaluate (Expr.binary op l r) record =
        Except.error (ConvertError.invalidConfig ("Binary operator expects numeric values"))) ∧
    (∀ a b, toF64 lv = some a → toF64 rv = some b →
      Expr.evaluate (Expr.binary op l r) record =
        Except.ok (numOf (applyBinaryOp op a b))) ∧
    (∀ q lit, toF64 (Json.num q lit) = some (RFloat.finite q)) ∧
    (∀ s, toF64 (Json.str s) = parseF64 s) ∧
    (toF64 (Json.bool false) = some (RFloat.finite 0) ∧
     toF64 (Json.bool true) = some (RFloat.finite 1)) ∧
    (toF64 Json.null = none ∧ (∀ xs, toF64 (Json.arr xs) = none) ∧
     (∀ es, toF64 (Json.obj es) = none)) ∧
    (∀ a b : Rat, b ≠ 0 →
      applyBinaryOp BinaryOp.divide (RFloat.finite a) (RFloat.finite b) =
        RFloat.finite (a / b)) := by
  refine ⟨?_, ?_, fun q lit => rfl, fun s => rfl, ⟨rfl, rfl⟩,
    ⟨rfl, fun xs => rfl, fun es => rfl⟩, ?_⟩
  · intro h
    rcases h with h | h
    · simp [Expr.evaluate, hl, hr, h]
    · rcases htl : toF64 lv with _ | a
      · simp [Expr.evaluate, hl, hr, htl]
      · simp [Expr.evaluate, hl, hr, htl, h]
  · intro a b ha hb
    simp [Expr.evaluate, hl, hr, ha, hb]
  · intro a b hb
    simp [applyBinaryOp, rfDiv, hb]

/-- Witness for C9: adding the booleans true and false evaluates as 1 + 0 on
the f64 model, and a null operand makes the same addition error with the
invalid-config message. -/
theorem c9_witness :
    Expr.evaluate (Expr.binary BinaryOp.add (Expr.literal (Json.bool true))
        (Expr.literal (Json.bool false))) [] =
      Except.ok (numOf (applyBinaryOp BinaryOp.add (RFloat.finite 1) (RFloat.finite 0))) ∧
    Expr.evaluate (Expr.binary BinaryOp.add (Expr.literal Json.null)
        (Expr.literal (Json.bool true))) [] =
      Except.error (ConvertError.invalidConfig ("Binary operator expects numeric values")) :=
  ⟨(c9_theorem BinaryOp.add (Expr.literal (Json.bool true)) (Expr.literal (Json.bool false))
      [] (Json.bool true) (Json.bool false) (by simp [Expr.evaluate])
      (by simp [Expr.evaluate])).2.1
      (RFloat.finite 1) (RFloat.finite 0) rfl rfl,
   (c9_theorem BinaryOp.add (Expr.literal Json.null) (Expr.literal (Json.bool true))
      [] Json.null (Json.bool true) (by simp [Expr.evaluate])
      (by simp [Expr.evaluate])).1 (Or.inl rfl)⟩

/-- The strict byte-string order is irreflexive. -/
theorem bytesLt_irrefl (a : Bytes) : bytesLt a a = false := by
  induction a with
  | nil => rfl
  | cons x xs ih => simp [bytesLt, ih]

/-- Byte strings unrelated by the strict order in either direction are equal. -/
theorem bytesLt_conn (a : Bytes) : ∀ b : Bytes,
    bytesLt a b = false → bytesLt b a = false → a = b := by
  induction a with
  | nil =>
    intro b h1 h2
    cases b with
    | nil => rfl
    | cons y ys => simp [bytesLt] at h1
  | cons x xs ih =>
    intro b h1 h2
    cases b with
    | nil => simp [bytesLt] at h2
    | cons y ys =>
      simp only [bytesLt] at h1 h2
      by_cases hxy : x < y
      · simp [hxy] at h1
      · by_cases hyx : y < x
        · simp [hxy, hyx] at h2
        · have hx : x = y := by omega
          subst hx
          simp [hxy, hyx] at h1 h2
          rw [ih ys h1 h2]

/-- Transitivity of the strict byte-string order. -/
theorem bytesLt_trans (a : Bytes) : ∀ b c : Bytes,
    bytesLt a b = true → bytesLt b c = true → bytesLt a c = true := by
  induction a with
  | nil =>
    intro b c h1 h2
    cases b with
    | nil => simp [bytesLt] at h1
    | cons y ys =>
      cases c with
      | nil => simp [bytesLt] at h2
      | cons z zs => simp [bytesLt]
  | cons x xs ih =>
    intro b c h1 h2
    cases b with
    | nil => simp [bytesLt] at h1
    | cons y ys =>
      cases c with
      | nil => simp [bytesLt] at h2
      | cons z zs =>
        simp only [bytesLt] at h1 h2 ⊢
        split_ifs at h1 h2 ⊢ <;>
          first | rfl | omega | (exact ih ys zs h1 h2) | simp_all

/-- The non-strict byte-string order is total. -/
theorem bytesLe_total (a b : Bytes) : bytesLe a b = true ∨ bytesLe b a = true := by
  by_cases h1 : bytesLt b a
  · by_cases h2 : bytesLt a b
    · have := bytesLt_trans a b a h2 h1
      rw [bytesLt_irrefl] at this
      cases this
    · right
      simp [bytesLe, h2]
  · left
    simp [bytesLe, h1]

/-- The non-strict byte-string order is transitive. -/
theorem bytesLe_trans (a b c : Bytes) (h1 : bytesLe a b = true) (h2 : bytesLe b c = true) :
    bytesLe a c = true := by
  simp only [bytesLe, Bool.not_eq_true'] at h1 h2 ⊢
  by_cases hca : bytesLt c a
  · by_cases hab : bytesLt a b
    · have h3 := bytesLt_trans c a b hca hab
      rw [h3] at h2
      cases h2
    · have hab2 : a = b := bytesLt_conn a b (by simpa using hab) h1
      subst hab2
      rw [hca] at h2
      cases h2
  · simpa using hca

/-- Membership in an insertion step. -/
theorem mem_insSorted (a : Bytes) (l : List Bytes) : ∀ x : Bytes,
    x ∈ insSorted bytesLe a l → x = a ∨ x ∈ l := by
  induction l with
  | nil =>
    intro x h
    simpa [insSorted] using h
  | cons b bs ih =>
    intro x h
    by_cases hab : bytesLe a b
    · simp only [insSorted, hab, if_pos, List.mem_cons] at h
      rcases h with h | h | h
      · exact Or.inl h
      · exact Or.inr (List.mem_cons.mpr (Or.inl h))
      · exact Or.inr (List.mem_cons.mpr (Or.inr h))
    · simp only [insSorted, hab, Bool.false_eq_true, if_neg, if_false, List.mem_cons] at h
      rcases h with h | h
      · exact Or.inr (by simp [h])
      · rcases ih x h with h2 | h2
        · exact Or.inl h2
        · exact Or.inr (by simp [h2])

/-- Inserting into a sorted list keeps it sorted. -/
theorem insSorted_pairwise (a : Bytes) (l : List Bytes)
    (h : List.Pairwise (fun x y => bytesLe x y = true) l) :
    List.Pairwise (fun x y => bytesLe x y = true) (insSorted bytesLe a l) := by
  induction l with
  | nil => simp [insSorted]
  | cons b bs ih =>
    rw [List.pairwise_cons] at h
    by_cases hab : bytesLe a b
    · simp only [insSorted, hab, if_pos]
      rw [List.pairwise_cons]
      refine ⟨?_, List.Pairwise.cons h.1 h.2⟩
      intro x hx
      rcases List.mem_cons.mp hx with hx2 | hx2
      · rw [hx2]; exact hab
      · exact bytesLe_trans a b x hab (h.1 x hx2)
    · simp only [insSorted, hab, Bool.false_eq_true, if_neg, if_false]
      rw [List.pairwise_cons]
      refine ⟨?_, ih h.2⟩
      intro x hx
      rcases mem_insSorted a bs x hx with h2 | h2
      · rw [h2]
        rcases bytesLe_total a b with h3 | h3
        · exact absurd h3 hab
        · exact h3
      · exact h.1 x h2

/-- Insertion sort by the byte-string order produces a sorted list. -/
theorem insSort_pairwise (l : List Bytes) :
    List.Pairwise (fun x y => bytesLe x y = true) (insSort bytesLe l) := by
  induction l with
  | nil => simp [insSort]
  | cons a as ih => exact insSorted_pairwise a (insSort bytesLe as) ih

/-- An insertion step is a permutation of pushing in front. -/
theorem insSorted_perm (a : Bytes) (l : List Bytes) :
    (insSorted bytesLe a l).Perm (a :: l) := by
  induction l with
  | nil => simp [insSorted]
  | cons b bs ih =>
    by_cases hab : bytesLe a b
    · simp [insSorted, hab]
    · simp only [insSorted, hab, Bool.false_eq_true, if_neg, if_false]
      exact (ih.cons b).trans (List.Perm.swap a b bs)

/-- Insertion sort permutes its input. -/
theorem insSort_perm (l : List Bytes) : (insSort bytesLe l).Perm l := by
  induction l with
  | nil => simp [insSort]
  | cons a as ih =>
    exact (insSorted_perm a (insSort bytesLe as)).trans (ih.cons a)

/-- A key absent from the front part of a map is looked up in the rest. -/
theorem xmlLookup_append (m l : List (Bytes × XmlValue)) (k : Bytes)
    (h : xmlLookup m k = none) : xmlLookup (m ++ l) k = xmlLookup l k := by
  induction m with
  | nil => rfl
  | cons e rest ih =>
    obtain ⟨k', v⟩ := e
    simp only [xmlLookup] at h
    by_cases hk : k' = k
    · simp [hk] at h
    · simp only [List.cons_append, xmlLookup, hk, if_neg]
      exact ih (by simpa [hk] using h)

/-- Replacing a present key rebinds exactly that key. -/
theorem xmlLookup_replace (m : List (Bytes × XmlValue)) (k : Bytes) (v w : XmlValue)
    (h : xmlLookup m k = some w) : xmlLookup (xmlReplace m k v) k = some v := by
  induction m with
  | nil => simp [xmlLookup] at h
  | cons e rest ih =>
    obtain ⟨k', v'⟩ := e
    simp only [xmlLookup] at h
    by_cases hk : k' = k
    · simp [xmlReplace, hk, xmlLookup]
    · simp only [xmlReplace, hk, if_neg, xmlLookup]
      exact ih (by simpa [hk] using h)

/-- Once a key is bound to an array, folding further occurrences through
`insert_value` appends them in order. -/
theorem insertValue_fold_arr (k : Bytes) (vs : List XmlValue) :
    ∀ (m : List (Bytes × XmlValue)) (xs : List XmlValue),
      xmlLookup m k = some (XmlValue.arr xs) →
      xmlLookup (vs.foldl (fun acc v => insertValue acc k v) m) k =
        some (XmlValue.arr (xs ++ vs)) := by
  induction vs with
  | nil =>
    intro m xs h
    simpa using h
  | cons v rest ih =>
    intro m xs h
    simp only [List.foldl_cons]
    have hstep : xmlLookup (insertValue m k v) k = some (XmlValue.arr (xs ++ [v])) := by
      unfold insertValue
      rw [h]
      exact xmlLookup_replace m k _ _ h
    have := ih (insertValue m k v) (xs ++ [v]) hstep
    simpa [List.append_assoc] using this

/-- A key bound to a non-array value is promoted to a two-element array by
the next `insert_value` of that key. -/
theorem insertValue_promote (m : List (Bytes × XmlValue)) (k : Bytes) (v0 v1 : XmlValue)
    (h : xmlLookup m k = some v0) (harr : ∀ ys, v0 ≠ XmlValue.arr ys) :
    xmlLookup (insertValue m k v1) k = some (XmlValue.arr [v0, v1]) := by
  cases v0 with
  | arr ys => exact absurd rfl (harr ys)
  | str s =>
    unfold insertValue
    rw [h]
    exact xmlLookup_replace m k _ _ h
  | obj es =>
    unfold insertValue
    rw [h]
    exact xmlLookup_replace m k _ _ h

/-- C8: under one parent map, a repeated child name folds through
`insert_value` into an array whose element 0 is the first occurrence's value
(itself not an array) with every later occurrence appended in document
order; and the object serializer emits exactly the sorted key list — sorted
lexicographically, a permutation of the map's keys. -/
theorem c8_theorem (k : Bytes) :
    (∀ (m : List (Bytes × XmlValue)) (v0 v1 : XmlValue) (vs : List XmlValue),
      xmlLookup m k = none →
      (∀ ys, v0 ≠ XmlValue.arr ys) →
      xmlLookup (((v0 :: v1 :: vs).foldl (fun acc v => insertValue acc k v)) m) k =
        some (XmlValue.arr (v0 :: v1 :: vs))) ∧
    (∀ m : List (Bytes × XmlValue),
      jsonValueToOutput (XmlValue.obj m) =
        123 :: xmlObjOut m true (insSort bytesLe (xmlKeys m)) ++ [125] ∧
      List.Pairwise (fun a b => bytesLe a b = true) (insSort bytesLe (xmlKeys m)) ∧
      (insSort bytesLe (xmlKeys m)).Perm (xmlKeys m)) := by
  constructor
  · intro m v0 v1 vs h0 harr
    simp only [List.foldl_cons]
    have h1 : insertValue m k v0 = m ++ [(k, v0)] := by
      unfold insertValue
      rw [h0]
    have h1l : xmlLookup (insertValue m k v0) k = some v0 := by
      rw [h1, xmlLookup_append m _ k h0]
      simp [xmlLookup]
    have h2l : xmlLookup (insertValue (insertValue m k v0) k v1) k =
        some (XmlValue.arr [v0, v1]) :=
      insertValue_promote _ k v0 v1 h1l harr
    have h3 := insertValue_fold_arr k vs _ [v0, v1] h2l
    simpa using h3
  · intro m
    refine ⟨?_, insSort_pairwise _, insSort_perm _⟩
    simp [jsonValueToOutput]

/-- Witness for C8: three occurrences of the same child name fold into a
three-element array in document order, and a two-key map serializes its keys
sorted. -/
theorem c8_witness :
    xmlLookup (([XmlValue.str [120], XmlValue.str [121], XmlValue.str [122]].foldl
        (fun acc v => insertValue acc [97] v)) []) [97] =
      some (XmlValue.arr [XmlValue.str [120], XmlValue.str [121], XmlValue.str [122]]) ∧
    List.Pairwise (fun a b => bytesLe a b = true)
      (insSort bytesLe (xmlKeys [([98], XmlValue.str [50]), ([97], XmlValue.str [49])])) :=
  ⟨(c8_theorem [97]).1 [] (XmlValue.str [120]) (XmlValue.str [121]) [XmlValue.str [122]]
      rfl (fun ys h => XmlValue.noConfusion h),
   ((c8_theorem [97]).2 [([98], XmlValue.str [50]), ([97], XmlValue.str [49])]).2.1⟩
